import Mathlib

/-!
# Options-portfolio analysis: payoff, curve, extrema and break-even points

A shallow embedding of the Go packages `model`, `routes` and `controllers`, in two
models of the `float64` arithmetic.

* The exact model (namespaces `routes` and `controllers`): every `float64` value is
  an exact rational `ℚ`; `math.Inf(-1)` and `math.Inf(1)` are the `⊥` of `WithBot ℚ`
  and the `⊤` of `WithTop ℚ`.  It carries the statements that do not depend on
  rounding, and the scenarios whose values `float64` represents exactly.
* The binary64 model (namespace `routes64`): the same functions of package
  `routes` with the result of every `float64` addition, subtraction, multiplication
  and division rounded to the nearest binary64 value, ties to even (`round64`).
  Overflow to an infinity and the sign of zero are not modelled, so its statements
  keep the magnitudes far below `2 ^ 1024`.  It carries the statements about the
  accumulated price `price += step` and about what the stepped scans report.
* A Go loop `for price := a; price <= hi; price += step { ... }` is the
  fuel-bounded function `forPrice` (exact) or `forPrice64` (binary64); the result
  `none` means that the fuel ran out before the guard failed.
-/

/-- The record `OptionsContract`; package `model` and package `controllers`
declare it with the same fields.  `ExpirationDate` is kept as a timestamp. -/
structure OptionsContract where
  Type_ : String
  StrikePrice : ℚ
  Bid : ℚ
  Ask : ℚ
  ExpirationDate : Int
  LongShort : String
deriving DecidableEq

/-- The record `GraphPoint` of package `routes`. -/
structure GraphPoint where
  X : ℚ
  Y : ℚ
deriving DecidableEq

/-- The statement `for price := start; price <= hi; price += step { st = body price st }`
in the exact model, run on at most `fuel` evaluations of the guard. -/
def forPrice {σ : Type} (hi : WithBot ℚ) (step : ℚ) (body : ℚ → σ → σ) :
    Nat → ℚ → σ → Option σ
  | 0, _, _ => none
  | fuel + 1, price, st =>
    if (price : WithBot ℚ) ≤ hi then
      forPrice hi step body fuel (price + step) (body price st)
    else
      some st

/-- The body of `forPrice` applied `m` times, the price advancing by `step`. -/
def iterPrice {σ : Type} (step : ℚ) (body : ℚ → σ → σ) : Nat → ℚ → σ → σ
  | 0, _, st => st
  | m + 1, price, st => iterPrice step body m (price + step) (body price st)

/-- What a request handler writes: an error with its HTTP status and message, or a
JSON body with its HTTP status. -/
inductive HttpResponse (α : Type) where
  | error (status : Nat) (message : String)
  | json (status : Nat) (body : α)

/-- The HTTP status of a response. -/
def HttpResponse.status {α : Type} : HttpResponse α → Nat
  | HttpResponse.error status _ => status
  | HttpResponse.json status _ => status

namespace routes

/-- The record `AnalysisResult` of package `routes`. -/
structure AnalysisResult where
  GraphData : List GraphPoint
  MaxProfit : WithBot ℚ
  MaxLoss : ℚ
  BreakEvenPoints : List ℚ

/-- Function `calculateCallProfit` of routes.go. -/
def calculateCallProfit (contract : OptionsContract) (underlyingPrice : ℚ) : ℚ :=
  if underlyingPrice ≤ contract.StrikePrice then
    -contract.Ask
  else
    underlyingPrice - contract.StrikePrice - contract.Ask

/-- Function `calculatePutProfit` of routes.go. -/
def calculatePutProfit (contract : OptionsContract) (underlyingPrice : ℚ) : ℚ :=
  if underlyingPrice ≥ contract.StrikePrice then
    -contract.Ask
  else
    contract.StrikePrice - underlyingPrice - contract.Ask

/-- Function `calculateProfit` of routes.go: a switch on `contract.Type`. -/
def calculateProfit (contract : OptionsContract) (underlyingPrice : ℚ) : ℚ :=
  if contract.Type_ = "Call" then
    calculateCallProfit contract underlyingPrice
  else if contract.Type_ = "Put" then
    calculatePutProfit contract underlyingPrice
  else
    0

/-- The inner loop `profit := 0.0; for _, contract := range contracts { profit += calculateProfit(contract, price) }`. -/
def portfolioProfit (contracts : List OptionsContract) (price : ℚ) : ℚ :=
  contracts.foldl (fun profit contract => profit + calculateProfit contract price) 0

/-- Function `maxStrikePrice` of routes.go; `⊥` is `math.Inf(-1)`. -/
def maxStrikePrice (contracts : List OptionsContract) : WithBot ℚ :=
  match contracts with
  | [] => ⊥
  | c0 :: _ =>
    ((contracts.foldl
      (fun maxPrice contract =>
        if contract.StrikePrice > maxPrice then contract.StrikePrice else maxPrice)
      c0.StrikePrice : ℚ) : WithBot ℚ)

/-- Function `minStrikePrice` of routes.go; `⊤` is `math.Inf(1)`. -/
def minStrikePrice (contracts : List OptionsContract) : WithTop ℚ :=
  match contracts with
  | [] => ⊤
  | c0 :: _ =>
    ((contracts.foldl
      (fun minPrice contract =>
        if contract.StrikePrice < minPrice then contract.StrikePrice else minPrice)
      c0.StrikePrice : ℚ) : WithTop ℚ)

/-- The first loop of `calculateGraphData`: `minStrike` and `maxStrike`, both
zero-initialised, set from the contract at index 0 and updated afterwards. -/
def strikeRange (contracts : List OptionsContract) : ℚ × ℚ :=
  contracts.enum.foldl
    (fun st ic =>
      (if ic.1 = 0 ∨ ic.2.StrikePrice < st.1 then ic.2.StrikePrice else st.1,
       if ic.1 = 0 ∨ ic.2.StrikePrice > st.2 then ic.2.StrikePrice else st.2))
    (0, 0)

/-- Function `calculateGraphData` of routes.go, in the exact model. -/
def calculateGraphData (fuel : Nat) (contracts : List OptionsContract) :
    Option (List GraphPoint) :=
  let minStrike := (strikeRange contracts).1
  let maxStrike := (strikeRange contracts).2
  forPrice ((maxStrike * (3 / 2) : ℚ) : WithBot ℚ) ((maxStrike * 2) / 100)
    (fun price graphData => graphData ++ [⟨price, portfolioProfit contracts price⟩])
    fuel (minStrike * (1 / 2)) []

/-- Function `calculateMaxProfit` of routes.go. -/
def calculateMaxProfit (fuel : Nat) (contracts : List OptionsContract) :
    Option (WithBot ℚ) :=
  if contracts.length = 0 then
    some ((0 : ℚ) : WithBot ℚ)
  else
    match minStrikePrice contracts with
    | none => some ⊥
    | some lo =>
      forPrice (maxStrikePrice contracts) (1 / 2)
        (fun price maxProfit =>
          if ((portfolioProfit contracts price : ℚ) : WithBot ℚ) > maxProfit then
            ((portfolioProfit contracts price : ℚ) : WithBot ℚ)
          else maxProfit)
        fuel lo ⊥

/-- Function `calculateMaxLoss` of routes.go, in the exact model. -/
def calculateMaxLoss (fuel : Nat) (contracts : List OptionsContract) : Option ℚ :=
  forPrice (WithBot.map (fun m => 2 * m) (maxStrikePrice contracts)) 1
    (fun price maxLoss =>
      if portfolioProfit contracts price < maxLoss then portfolioProfit contracts price
      else maxLoss)
    fuel 0 0

/-- The loop body of `calculateBreakEvenPoints`; the state is
`(breakEvenPoints, previousProfit)`. -/
def breakEvenBody (contracts : List OptionsContract) (price : ℚ) (st : List ℚ × ℚ) :
    List ℚ × ℚ :=
  let profit := portfolioProfit contracts price
  (if price ≠ 0 ∧ ((st.2 < 0 ∧ profit ≥ 0) ∨ (st.2 > 0 ∧ profit ≤ 0)) then
      st.1 ++ [price]
    else st.1,
   profit)

/-- Function `calculateBreakEvenPoints` of routes.go, in the exact model. -/
def calculateBreakEvenPoints (fuel : Nat) (contracts : List OptionsContract) :
    Option (List ℚ) :=
  (forPrice (WithBot.map (fun m => 2 * m) (maxStrikePrice contracts)) 1
    (breakEvenBody contracts) fuel 0 ([], 0)).map Prod.fst

/-- The handler of `POST /analyze` registered by `SetupRouter`, on a request body
that binds to `contracts`: status 400 above 4 contracts, otherwise the four
computations in turn and status 200. -/
def analyzeHandler (fuel : Nat) (contracts : List OptionsContract) :
    Option (HttpResponse AnalysisResult) :=
  if contracts.length > 4 then
    some (HttpResponse.error 400 "Too many options contracts; maximum is 4")
  else
    (calculateGraphData fuel contracts).bind fun graphData =>
    (calculateMaxProfit fuel contracts).bind fun maxProfit =>
    (calculateMaxLoss fuel contracts).bind fun maxLoss =>
    (calculateBreakEvenPoints fuel contracts).bind fun breakEvenPoints =>
    some (HttpResponse.json 200 ⟨graphData, maxProfit, maxLoss, breakEvenPoints⟩)

end routes

namespace controllers

/-- The record `XYValue` of package `controllers`. -/
structure XYValue where
  X : ℚ
  Y : ℚ
deriving DecidableEq

/-- The record `AnalysisResponse` of package `controllers`. -/
structure AnalysisResponse where
  XYValues : List XYValue
  MaxProfit : ℚ
  MaxLoss : ℚ
  BreakEvenPoints : List ℚ

/-- Function `calculateProfit` of analysisController.go. -/
def calculateProfit (contract : OptionsContract) (price : ℚ) : ℚ :=
  if contract.Type_ = "call" then
    if contract.LongShort = "long" then
      max 0 (price - contract.StrikePrice) - contract.Ask
    else
      contract.Bid - max 0 (price - contract.StrikePrice)
  else if contract.Type_ = "put" then
    if contract.LongShort = "long" then
      max 0 (contract.StrikePrice - price) - contract.Ask
    else
      contract.Bid - max 0 (contract.StrikePrice - price)
  else
    0

/-- The inner loop `profit := 0.0; for _, contract := range contracts { profit += calculateProfit(contract, price) }`. -/
def portfolioProfit (contracts : List OptionsContract) (price : ℚ) : ℚ :=
  contracts.foldl (fun profit contract => profit + calculateProfit contract price) 0

/-- Function `maxStrikePrice` of analysisController.go. -/
def maxStrikePrice (contracts : List OptionsContract) : ℚ :=
  contracts.foldl
    (fun maxStrike contract =>
      if contract.StrikePrice > maxStrike then contract.StrikePrice else maxStrike)
    0

/-- Function `calculateMaxProfit` of analysisController.go. -/
def calculateMaxProfit (fuel : Nat) (contracts : List OptionsContract) : Option ℚ :=
  forPrice ((2 * maxStrikePrice contracts : ℚ) : WithBot ℚ) 1
    (fun price maxProfit =>
      if portfolioProfit contracts price > maxProfit then portfolioProfit contracts price
      else maxProfit)
    fuel 0 0

/-- Function `calculateMaxLoss` of analysisController.go. -/
def calculateMaxLoss (fuel : Nat) (contracts : List OptionsContract) : Option ℚ :=
  forPrice ((2 * maxStrikePrice contracts : ℚ) : WithBot ℚ) 1
    (fun price maxLoss =>
      if portfolioProfit contracts price < maxLoss then portfolioProfit contracts price
      else maxLoss)
    fuel 0 0

/-- The loop body of `calculateBreakEvenPoints`; the state is
`(breakEvenPoints, previousProfit)`. -/
def breakEvenBody (contracts : List OptionsContract) (price : ℚ) (st : List ℚ × ℚ) :
    List ℚ × ℚ :=
  let profit := portfolioProfit contracts price
  (if price ≠ 0 ∧ ((st.2 < 0 ∧ profit ≥ 0) ∨ (st.2 > 0 ∧ profit ≤ 0)) then
      st.1 ++ [price]
    else st.1,
   profit)

/-- Function `calculateBreakEvenPoints` of analysisController.go. -/
def calculateBreakEvenPoints (fuel : Nat) (contracts : List OptionsContract) :
    Option (List ℚ) :=
  (forPrice ((2 * maxStrikePrice contracts : ℚ) : WithBot ℚ) 1
    (breakEvenBody contracts) fuel 0 ([], 0)).map Prod.fst

/-- The first loop of `calculateXYValues`: `minStrike` and `maxStrike`, both
zero-initialised, set from the contract at index 0 and updated afterwards. -/
def strikeRange (contracts : List OptionsContract) : ℚ × ℚ :=
  contracts.enum.foldl
    (fun st ic =>
      (if ic.1 = 0 ∨ ic.2.StrikePrice < st.1 then ic.2.StrikePrice else st.1,
       if ic.1 = 0 ∨ ic.2.StrikePrice > st.2 then ic.2.StrikePrice else st.2))
    (0, 0)

/-- Function `calculateXYValues` of analysisController.go. -/
def calculateXYValues (fuel : Nat) (contracts : List OptionsContract) :
    Option (List XYValue) :=
  let minStrike := (strikeRange contracts).1
  let maxStrike := (strikeRange contracts).2
  forPrice ((maxStrike * (3 / 2) : ℚ) : WithBot ℚ) ((maxStrike * 2) / 100)
    (fun price xyValues => xyValues ++ [⟨price, portfolioProfit contracts price⟩])
    fuel (minStrike * (1 / 2)) []

/-- Function `AnalysisHandler` of analysisController.go, on a request of method
`method` whose body decodes to `contracts`: status 405 unless the method is POST,
status 400 above 4 contracts, otherwise the four computations in turn and the
default status 200. -/
def AnalysisHandler (fuel : Nat) (method : String) (contracts : List OptionsContract) :
    Option (HttpResponse AnalysisResponse) :=
  if method ≠ "POST" then
    some (HttpResponse.error 405 "Invalid request method")
  else if contracts.length > 4 then
    some (HttpResponse.error 400 "Too many options contracts; maximum is 4")
  else
    (calculateXYValues fuel contracts).bind fun xyValues =>
    (calculateMaxProfit fuel contracts).bind fun maxProfit =>
    (calculateMaxLoss fuel contracts).bind fun maxLoss =>
    (calculateBreakEvenPoints fuel contracts).bind fun breakEvenPoints =>
    some (HttpResponse.json 200 ⟨xyValues, maxProfit, maxLoss, breakEvenPoints⟩)

end controllers

/-! ## The binary64 model of package `routes` -/

/-- Rounding of a rational to the nearest integer, a tie going to the even one. -/
def roundHalfEven (x : ℚ) : ℤ :=
  if x - ⌊x⌋ < 1 / 2 then ⌊x⌋
  else if 1 / 2 < x - ⌊x⌋ then ⌊x⌋ + 1
  else if ⌊x⌋ % 2 = 0 then ⌊x⌋
  else ⌊x⌋ + 1

/-- The exponent of the unit in the last place of binary64 at the magnitude of `x`:
53 significant bits above the least exponent `-1074` of the subnormal numbers. -/
def ulpExp (x : ℚ) : ℤ := max (Int.log 2 |x| - 52) (-1074)

/-- The binary64 value to which `float64` arithmetic rounds the exact result `x`
(round to nearest, ties to even), for results below the overflow threshold. -/
def round64 (x : ℚ) : ℚ := (roundHalfEven (x / 2 ^ ulpExp x) : ℚ) * 2 ^ ulpExp x

/-- The values of the grid of step `1 / 1024`. -/
def OnGrid (x : ℚ) : Prop := ∃ m : ℤ, x = (m : ℚ) / 1024

/-- The statement `for price := start; price <= hi; price += step { st = body price st }`
with the addition `price += step` rounded to binary64, run on at most `fuel`
evaluations of the guard. -/
def forPrice64 {σ : Type} (hi : WithBot ℚ) (step : ℚ) (body : ℚ → σ → σ) :
    Nat → ℚ → σ → Option σ
  | 0, _, _ => none
  | fuel + 1, price, st =>
    if (price : WithBot ℚ) ≤ hi then
      forPrice64 hi step body fuel (round64 (price + step)) (body price st)
    else
      some st

namespace routes64

/-- Function `calculateCallProfit` of routes.go; the two subtractions are rounded. -/
def calculateCallProfit (contract : OptionsContract) (underlyingPrice : ℚ) : ℚ :=
  if underlyingPrice ≤ contract.StrikePrice then
    -contract.Ask
  else
    round64 (round64 (underlyingPrice - contract.StrikePrice) - contract.Ask)

/-- Function `calculatePutProfit` of routes.go; the two subtractions are rounded. -/
def calculatePutProfit (contract : OptionsContract) (underlyingPrice : ℚ) : ℚ :=
  if underlyingPrice ≥ contract.StrikePrice then
    -contract.Ask
  else
    round64 (round64 (contract.StrikePrice - underlyingPrice) - contract.Ask)

/-- Function `calculateProfit` of routes.go: a switch on `contract.Type`. -/
def calculateProfit (contract : OptionsContract) (underlyingPrice : ℚ) : ℚ :=
  if contract.Type_ = "Call" then
    calculateCallProfit contract underlyingPrice
  else if contract.Type_ = "Put" then
    calculatePutProfit contract underlyingPrice
  else
    0

/-- The inner loop `profit := 0.0; for _, contract := range contracts { profit += calculateProfit(contract, price) }`,
each addition rounded. -/
def portfolioProfit (contracts : List OptionsContract) (price : ℚ) : ℚ :=
  contracts.foldl (fun profit contract => round64 (profit + calculateProfit contract price)) 0

/-- Function `calculateGraphData` of routes.go: the bounds `minStrike * 0.5` and
`maxStrike * 1.5`, the step `(maxStrike * 2) / 100` and the accumulated price are
rounded. -/
def calculateGraphData (fuel : Nat) (contracts : List OptionsContract) :
    Option (List GraphPoint) :=
  let minStrike := (routes.strikeRange contracts).1
  let maxStrike := (routes.strikeRange contracts).2
  forPrice64 ((round64 (maxStrike * (3 / 2)) : ℚ) : WithBot ℚ)
    (round64 (round64 (maxStrike * 2) / 100))
    (fun price graphData => graphData ++ [⟨price, portfolioProfit contracts price⟩])
    fuel (round64 (minStrike * (1 / 2))) []

/-- Function `calculateMaxLoss` of routes.go: the bound `2 * maxStrikePrice(contracts)`
and the accumulated price are rounded. -/
def calculateMaxLoss (fuel : Nat) (contracts : List OptionsContract) : Option ℚ :=
  forPrice64 (WithBot.map (fun m => round64 (2 * m)) (routes.maxStrikePrice contracts)) 1
    (fun price maxLoss =>
      if portfolioProfit contracts price < maxLoss then portfolioProfit contracts price
      else maxLoss)
    fuel 0 0

/-- The loop body of `calculateBreakEvenPoints`; the state is
`(breakEvenPoints, previousProfit)`. -/
def breakEvenBody (contracts : List OptionsContract) (price : ℚ) (st : List ℚ × ℚ) :
    List ℚ × ℚ :=
  let profit := portfolioProfit contracts price
  (if price ≠ 0 ∧ ((st.2 < 0 ∧ profit ≥ 0) ∨ (st.2 > 0 ∧ profit ≤ 0)) then
      st.1 ++ [price]
    else st.1,
   profit)

/-- Function `calculateBreakEvenPoints` of routes.go: the bound
`2 * maxStrikePrice(contracts)` and the accumulated price are rounded. -/
def calculateBreakEvenPoints (fuel : Nat) (contracts : List OptionsContract) :
    Option (List ℚ) :=
  (forPrice64 (WithBot.map (fun m => round64 (2 * m)) (routes.maxStrikePrice contracts)) 1
    (breakEvenBody contracts) fuel 0 ([], 0)).map Prod.fst

end routes64

/-! ## Payoff of one contract -/

/-- C1: `controllers.calculateProfit` implements the four payoff formulas:
long call `max(0, price - strike) - ask`, short call `bid - max(0, price - strike)`,
long put `max(0, strike - price) - ask`, short put `bid - max(0, strike - price)`. -/
theorem controllers_calculateProfit_formulas (strike bid ask price : ℚ) (exp : Int) :
    controllers.calculateProfit ⟨"call", strike, bid, ask, exp, "long"⟩ price
        = max 0 (price - strike) - ask
    ∧ controllers.calculateProfit ⟨"call", strike, bid, ask, exp, "short"⟩ price
        = bid - max 0 (price - strike)
    ∧ controllers.calculateProfit ⟨"put", strike, bid, ask, exp, "long"⟩ price
        = max 0 (strike - price) - ask
    ∧ controllers.calculateProfit ⟨"put", strike, bid, ask, exp, "short"⟩ price
        = bid - max 0 (strike - price) := by
  refine ⟨?_, ?_, ?_, ?_⟩ <;> simp [controllers.calculateProfit]

/-- C2 (evaluation at the failing input): in package `routes` the short call of
strike 100, bid 3, ask 5 is paid at price 110 like a long call, `110 - 100 - 5 = 5`,
and not `bid - max(0, price - strike) = -7`; the short put of the same terms is
paid `-5` at price 110 and not `bid - max(0, strike - price) = 3`. -/
theorem routes_calculateProfit_short_ignores_bid :
    routes.calculateProfit ⟨"Call", 100, 3, 5, 0, "short"⟩ 110 = 5
    ∧ (3 : ℚ) - max 0 (110 - 100) = -7
    ∧ routes.calculateProfit ⟨"Put", 100, 3, 5, 0, "short"⟩ 110 = -5
    ∧ (3 : ℚ) - max 0 (100 - 110) = 3 := by
  refine ⟨?_, ?_, ?_, ?_⟩
  · simp [routes.calculateProfit, routes.calculateCallProfit]
    norm_num
  · norm_num
  · simp [routes.calculateProfit, routes.calculatePutProfit]
    norm_num
  · norm_num

/-- C8: an option type outside the recognised spellings pays zero, whatever the
strike, bid, ask and position: in `routes` when it is neither "Call" nor "Put",
in `controllers` when it is neither "call" nor "put". -/
theorem calculateProfit_unknown_type_zero (c : OptionsContract) (price : ℚ) :
    (c.Type_ ≠ "Call" → c.Type_ ≠ "Put" → routes.calculateProfit c price = 0)
    ∧ (c.Type_ ≠ "call" → c.Type_ ≠ "put" → controllers.calculateProfit c price = 0) := by
  constructor
  · intro h1 h2
    simp [routes.calculateProfit, h1, h2]
  · intro h1 h2
    simp [controllers.calculateProfit, h1, h2]

/-- Witness of C8: the type "Straddle" in `routes`, the capitalised "Call" in
`controllers`. -/
theorem calculateProfit_unknown_type_zero_witness :
    routes.calculateProfit ⟨"Straddle", 100, 3, 5, 0, "long"⟩ 110 = 0
    ∧ controllers.calculateProfit ⟨"Call", 100, 3, 5, 0, "long"⟩ 110 = 0 :=
  ⟨(calculateProfit_unknown_type_zero ⟨"Straddle", 100, 3, 5, 0, "long"⟩ 110).1
      (by decide) (by decide),
   (calculateProfit_unknown_type_zero ⟨"Call", 100, 3, 5, 0, "long"⟩ 110).2
      (by decide) (by decide)⟩

/-- C9 (counterexample): a call with the empty position is not paid zero by
`controllers.calculateProfit`; at strike 100, bid 3 and price 90 it is paid 3. -/
theorem controllers_unknown_position_not_zero :
    ¬ ∀ (c : OptionsContract) (price : ℚ),
        (c.Type_ = "call" ∨ c.Type_ = "put") →
        c.LongShort ≠ "long" → c.LongShort ≠ "short" →
        controllers.calculateProfit c price = 0 := by
  intro h
  have h0 := h ⟨"call", 100, 3, 5, 0, ""⟩ 90 (Or.inl rfl) (by decide) (by decide)
  simp [controllers.calculateProfit] at h0
  norm_num at h0

/-- C9 (amended): in `controllers.calculateProfit` a recognised option type whose
position is anything but "long" (an unknown position such as the empty string
included) is paid as a short leg. -/
theorem controllers_not_long_paid_as_short (c : OptionsContract) (price : ℚ)
    (hpos : c.LongShort ≠ "long") :
    (c.Type_ = "call" →
      controllers.calculateProfit c price = c.Bid - max 0 (price - c.StrikePrice))
    ∧ (c.Type_ = "put" →
      controllers.calculateProfit c price = c.Bid - max 0 (c.StrikePrice - price)) := by
  constructor
  · intro ht
    simp [controllers.calculateProfit, ht, hpos]
  · intro ht
    simp [controllers.calculateProfit, ht, hpos]

/-- Witness of C9 (amended): the empty position, strike 100, bid 3, price 90. -/
theorem controllers_not_long_paid_as_short_witness :
    controllers.calculateProfit ⟨"call", 100, 3, 5, 0, ""⟩ 90 = 3 - max 0 (90 - 100)
    ∧ controllers.calculateProfit ⟨"put", 100, 3, 5, 0, ""⟩ 90 = 3 - max 0 (100 - 90) :=
  ⟨(controllers_not_long_paid_as_short ⟨"call", 100, 3, 5, 0, ""⟩ 90 (by decide)).1 rfl,
   (controllers_not_long_paid_as_short ⟨"put", 100, 3, 5, 0, ""⟩ 90 (by decide)).2 rfl⟩

/-! ## The price loop -/

/-- A loop whose step is zero and whose guard holds never leaves the guard. -/
theorem forPrice_zero_step {σ : Type} (hi : WithBot ℚ) (body : ℚ → σ → σ) (price : ℚ)
    (hle : (price : WithBot ℚ) ≤ hi) :
    ∀ (fuel : Nat) (st : σ), forPrice hi 0 body fuel price st = none := by
  intro fuel
  induction fuel with
  | zero => intro st; rfl
  | succ n ih =>
    intro st
    simp only [forPrice, hle, if_true, add_zero]
    exact ih _

/-- When the guard holds at the first `m` prices and fails at the next one, the
loop runs the body `m` times and returns, on any fuel above `m`. -/
theorem forPrice_eq_iterPrice {σ : Type} (b step : ℚ) (body : ℚ → σ → σ) :
    ∀ (m : Nat) (a : ℚ) (st : σ) (k : Nat),
      (∀ i : Nat, i < m → a + i * step ≤ b) → b < a + m * step →
      forPrice (b : WithBot ℚ) step body (m + 1 + k) a st
        = some (iterPrice step body m a st) := by
  intro m
  induction m with
  | zero =>
    intro a st k _ hlt
    have hlt2 : b < a := by simpa using hlt
    have hn : ¬ ((a : WithBot ℚ) ≤ (b : WithBot ℚ)) := by
      rw [WithBot.coe_le_coe]; exact not_le.mpr hlt2
    have hk : 0 + 1 + k = k + 1 := by omega
    rw [hk]
    simp [forPrice, iterPrice, hn]
  | succ n ih =>
    intro a st k hle hlt
    have h0 : a ≤ b := by simpa using hle 0 (Nat.succ_pos n)
    have hg : (a : WithBot ℚ) ≤ (b : WithBot ℚ) := WithBot.coe_le_coe.mpr h0
    have hk : n + 1 + 1 + k = (n + 1 + k) + 1 := by omega
    rw [hk]
    simp only [forPrice, hg, if_true, iterPrice]
    apply ih
    · intro i hi
      have := hle (i + 1) (Nat.succ_lt_succ hi)
      push_cast at this
      linarith
    · push_cast at hlt
      linarith

/-- More fuel does not change a result. -/
theorem forPrice_fuel_mono {σ : Type} (hi : WithBot ℚ) (step : ℚ) (body : ℚ → σ → σ) :
    ∀ (fuel : Nat) (a : ℚ) (st r : σ) (k : Nat),
      forPrice hi step body fuel a st = some r →
      forPrice hi step body (fuel + k) a st = some r := by
  intro fuel
  induction fuel with
  | zero => intro a st r k h; simp [forPrice] at h
  | succ n ih =>
    intro a st r k h
    have hk : n + 1 + k = (n + k) + 1 := by omega
    rw [hk]
    by_cases hg : (a : WithBot ℚ) ≤ hi
    · simp only [forPrice, hg, if_true] at h ⊢
      exact ih _ _ _ _ h
    · simp only [forPrice, hg, if_false] at h ⊢
      exact h

/-- The result of a loop does not depend on the fuel on which it returns. -/
theorem forPrice_deterministic {σ : Type} (hi : WithBot ℚ) (step : ℚ) (body : ℚ → σ → σ)
    (n1 n2 : Nat) (a : ℚ) (st r1 r2 : σ)
    (h1 : forPrice hi step body n1 a st = some r1)
    (h2 : forPrice hi step body n2 a st = some r2) : r1 = r2 := by
  have e1 := forPrice_fuel_mono hi step body n1 a st r1 n2 h1
  have e2 := forPrice_fuel_mono hi step body n2 a st r2 n1 h2
  rw [Nat.add_comm] at e2
  rw [e1] at e2
  exact Option.some.inj e2

/-- For a positive step the guard fails after finitely many prices: after
`⌊(b - a) / step⌋ + 1` of them when `a ≤ b`. -/
theorem loop_count_spec (a b step : ℚ) (hstep : 0 < step) (hab : a ≤ b) :
    (∀ i : Nat, i < ⌊(b - a) / step⌋₊ + 1 → a + i * step ≤ b)
    ∧ b < a + ((⌊(b - a) / step⌋₊ + 1 : Nat) : ℚ) * step := by
  have hq : 0 ≤ (b - a) / step := div_nonneg (by linarith) hstep.le
  constructor
  · intro i hi
    have hi2 : i ≤ ⌊(b - a) / step⌋₊ := Nat.lt_succ_iff.mp hi
    have h1 : (i : ℚ) ≤ (b - a) / step := (Nat.le_floor_iff hq).mp hi2
    have h2 : (i : ℚ) * step ≤ b - a := (le_div_iff₀ hstep).mp h1
    linarith
  · have h1 : (b - a) / step < (⌊(b - a) / step⌋₊ : ℚ) + 1 := Nat.lt_floor_add_one _
    have h2 : b - a < ((⌊(b - a) / step⌋₊ : ℚ) + 1) * step := (div_lt_iff₀ hstep).mp h1
    push_cast
    linarith

/-! ## The empty portfolio -/

/-- C3 (evaluation at the failing input): on the empty portfolio
`routes.calculateGraphData` has `minStrike = maxStrike = 0`, so the guard
`0 <= 0` holds and the step is `0`: on no amount of fuel does it return. -/
theorem routes_calculateGraphData_empty_diverges :
    ∀ fuel : Nat, routes.calculateGraphData fuel [] = none := by
  intro fuel
  have h := forPrice_zero_step (((0 : ℚ) : WithBot ℚ))
    (fun price (graphData : List GraphPoint) =>
      graphData ++ [⟨price, routes.portfolioProfit [] price⟩]) 0 le_rfl fuel []
  simpa [routes.calculateGraphData, routes.strikeRange] using h

/-- C4: on the empty portfolio `calculateMaxProfit` and `calculateMaxLoss` return 0
and `calculateBreakEvenPoints` returns the empty sequence, in package `routes`
and in package `controllers`. -/
theorem empty_portfolio_extrema_and_breakEvens (fuel : Nat) :
    routes.calculateMaxProfit fuel [] = some ((0 : ℚ) : WithBot ℚ)
    ∧ routes.calculateMaxLoss (fuel + 1) [] = some 0
    ∧ routes.calculateBreakEvenPoints (fuel + 1) [] = some []
    ∧ controllers.calculateMaxProfit (fuel + 2) [] = some 0
    ∧ controllers.calculateMaxLoss (fuel + 2) [] = some 0
    ∧ controllers.calculateBreakEvenPoints (fuel + 2) [] = some [] := by
  refine ⟨?_, ?_, ?_, ?_, ?_, ?_⟩
  · simp [routes.calculateMaxProfit]
  · simp [routes.calculateMaxLoss, routes.maxStrikePrice, forPrice]
  · simp [routes.calculateBreakEvenPoints, routes.maxStrikePrice, forPrice]
  · simp [controllers.calculateMaxProfit, controllers.maxStrikePrice,
      controllers.portfolioProfit, forPrice]
  · simp [controllers.calculateMaxLoss, controllers.maxStrikePrice,
      controllers.portfolioProfit, forPrice]
  · have hb : controllers.maxStrikePrice [] = 0 := rfl
    have h := forPrice_eq_iterPrice (2 * 0) 1 (controllers.breakEvenBody []) 1 0 ([], 0) fuel
      (by intro i hi; interval_cases i; norm_num) (by norm_num)
    have hf : fuel + 2 = 1 + 1 + fuel := by omega
    rw [controllers.calculateBreakEvenPoints, hb, hf, h]
    simp [iterPrice, controllers.breakEvenBody]

/-! ## Strike range and portfolio profit in package `routes` -/

/-- The running maximum of the strikes is above its start and above each strike,
and it is the start or one of the strikes. -/
theorem foldl_maxStrike_spec (cs : List OptionsContract) :
    ∀ init : ℚ,
      init ≤ cs.foldl (fun m c => if c.StrikePrice > m then c.StrikePrice else m) init
      ∧ (∀ c ∈ cs,
          c.StrikePrice ≤ cs.foldl (fun m c => if c.StrikePrice > m then c.StrikePrice else m) init)
      ∧ (cs.foldl (fun m c => if c.StrikePrice > m then c.StrikePrice else m) init = init
          ∨ ∃ c ∈ cs,
            c.StrikePrice = cs.foldl (fun m c => if c.StrikePrice > m then c.StrikePrice else m) init) := by
  induction cs with
  | nil => intro init; simp
  | cons c cs ih =>
    intro init
    simp only [List.foldl_cons, List.mem_cons]
    obtain ⟨h1, h2, h3⟩ := ih (if c.StrikePrice > init then c.StrikePrice else init)
    have hstep : init ≤ (if c.StrikePrice > init then c.StrikePrice else init)
        ∧ c.StrikePrice ≤ (if c.StrikePrice > init then c.StrikePrice else init) := by
      split_ifs with h
      · exact ⟨le_of_lt h, le_rfl⟩
      · exact ⟨le_rfl, not_lt.mp h⟩
    refine ⟨le_trans hstep.1 h1, ?_, ?_⟩
    · intro d hd
      rcases hd with rfl | hd
      · exact le_trans hstep.2 h1
      · exact h2 d hd
    · rcases h3 with h3 | ⟨d, hd, hde⟩
      · by_cases h : c.StrikePrice > init
        · right
          refine ⟨c, Or.inl rfl, ?_⟩
          rw [h3, if_pos h]
        · left
          rw [h3, if_neg h]
      · right
        exact ⟨d, Or.inr hd, hde⟩

/-- The running minimum of the strikes is below its start and below each strike,
and it is the start or one of the strikes. -/
theorem foldl_minStrike_spec (cs : List OptionsContract) :
    ∀ init : ℚ,
      cs.foldl (fun m c => if c.StrikePrice < m then c.StrikePrice else m) init ≤ init
      ∧ (∀ c ∈ cs,
          cs.foldl (fun m c => if c.StrikePrice < m then c.StrikePrice else m) init ≤ c.StrikePrice)
      ∧ (cs.foldl (fun m c => if c.StrikePrice < m then c.StrikePrice else m) init = init
          ∨ ∃ c ∈ cs,
            c.StrikePrice = cs.foldl (fun m c => if c.StrikePrice < m then c.StrikePrice else m) init) := by
  induction cs with
  | nil => intro init; simp
  | cons c cs ih =>
    intro init
    simp only [List.foldl_cons, List.mem_cons]
    obtain ⟨h1, h2, h3⟩ := ih (if c.StrikePrice < init then c.StrikePrice else init)
    have hstep : (if c.StrikePrice < init then c.StrikePrice else init) ≤ init
        ∧ (if c.StrikePrice < init then c.StrikePrice else init) ≤ c.StrikePrice := by
      split_ifs with h
      · exact ⟨le_of_lt h, le_rfl⟩
      · exact ⟨le_rfl, not_lt.mp h⟩
    refine ⟨le_trans h1 hstep.1, ?_, ?_⟩
    · intro d hd
      rcases hd with rfl | hd
      · exact le_trans h1 hstep.2
      · exact h2 d hd
    · rcases h3 with h3 | ⟨d, hd, hde⟩
      · by_cases h : c.StrikePrice < init
        · right
          refine ⟨c, Or.inl rfl, ?_⟩
          rw [h3, if_pos h]
        · left
          rw [h3, if_neg h]
      · right
        exact ⟨d, Or.inr hd, hde⟩

/-- Past index 0 the first loop of `calculateGraphData` is a running minimum and
a running maximum. -/
theorem strikeRange_enumFrom (cs : List OptionsContract) :
    ∀ (n : Nat) (mn mx : ℚ),
      (cs.enumFrom (n + 1)).foldl
        (fun (st : ℚ × ℚ) (ic : Nat × OptionsContract) =>
          (if ic.1 = 0 ∨ ic.2.StrikePrice < st.1 then ic.2.StrikePrice else st.1,
           if ic.1 = 0 ∨ ic.2.StrikePrice > st.2 then ic.2.StrikePrice else st.2))
        (mn, mx)
      = (cs.foldl (fun m c => if c.StrikePrice < m then c.StrikePrice else m) mn,
         cs.foldl (fun m c => if c.StrikePrice > m then c.StrikePrice else m) mx) := by
  induction cs with
  | nil => intro n mn mx; rfl
  | cons c cs ih =>
    intro n mn mx
    simp only [List.enumFrom_cons, List.foldl_cons, Nat.succ_ne_zero, false_or]
    exact ih (n + 1) _ _

/-- On a non-empty portfolio `minStrike` and `maxStrike` of `calculateGraphData`
are the running minimum and maximum started at the first strike. -/
theorem strikeRange_cons (c : OptionsContract) (cs : List OptionsContract) :
    routes.strikeRange (c :: cs)
      = (cs.foldl (fun m c => if c.StrikePrice < m then c.StrikePrice else m) c.StrikePrice,
         cs.foldl (fun m c => if c.StrikePrice > m then c.StrikePrice else m) c.StrikePrice) := by
  unfold routes.strikeRange
  simp only [List.enum, List.enumFrom_cons, List.foldl_cons, true_or, if_true]
  exact strikeRange_enumFrom cs 0 _ _

/-- On a non-empty portfolio `maxStrikePrice` returns the `maxStrike` of
`calculateGraphData`. -/
theorem maxStrikePrice_cons (c : OptionsContract) (cs : List OptionsContract) :
    routes.maxStrikePrice (c :: cs) = (((routes.strikeRange (c :: cs)).2 : ℚ) : WithBot ℚ) := by
  rw [strikeRange_cons]
  simp [routes.maxStrikePrice]

/-- On a non-empty portfolio the strike range is attained and bounds every strike. -/
theorem strikeRange_spec (cs : List OptionsContract) (hne : cs ≠ []) :
    (∀ c ∈ cs, (routes.strikeRange cs).1 ≤ c.StrikePrice)
    ∧ (∃ c ∈ cs, c.StrikePrice = (routes.strikeRange cs).1)
    ∧ (∀ c ∈ cs, c.StrikePrice ≤ (routes.strikeRange cs).2)
    ∧ (∃ c ∈ cs, c.StrikePrice = (routes.strikeRange cs).2) := by
  cases cs with
  | nil => exact absurd rfl hne
  | cons c cs =>
    rw [strikeRange_cons]
    obtain ⟨a1, a2, a3⟩ := foldl_minStrike_spec cs c.StrikePrice
    obtain ⟨b1, b2, b3⟩ := foldl_maxStrike_spec cs c.StrikePrice
    refine ⟨?_, ?_, ?_, ?_⟩
    · intro d hd
      rcases List.mem_cons.mp hd with rfl | hd
      · exact a1
      · exact a2 d hd
    · rcases a3 with h | ⟨d, hd, hde⟩
      · exact ⟨c, List.mem_cons_self _ _, h.symm⟩
      · exact ⟨d, List.mem_cons_of_mem _ hd, hde⟩
    · intro d hd
      rcases List.mem_cons.mp hd with rfl | hd
      · exact b1
      · exact b2 d hd
    · rcases b3 with h | ⟨d, hd, hde⟩
      · exact ⟨c, List.mem_cons_self _ _, h.symm⟩
      · exact ⟨d, List.mem_cons_of_mem _ hd, hde⟩

/-- The accumulated profit of a portfolio, started at any value. -/
theorem routes_foldl_profit (price : ℚ) (cs : List OptionsContract) :
    ∀ init : ℚ,
      cs.foldl (fun profit contract => profit + routes.calculateProfit contract price) init
        = init + routes.portfolioProfit cs price := by
  induction cs with
  | nil => intro init; simp [routes.portfolioProfit]
  | cons c cs ih =>
    intro init
    simp only [routes.portfolioProfit, List.foldl_cons]
    rw [ih, ih (0 + routes.calculateProfit c price)]
    ring

/-- The profit of a portfolio is the profit of its first contract plus the
profit of the rest. -/
theorem routes_portfolioProfit_cons (c : OptionsContract) (cs : List OptionsContract)
    (price : ℚ) :
    routes.portfolioProfit (c :: cs) price
      = routes.calculateProfit c price + routes.portfolioProfit cs price := by
  have h := routes_foldl_profit price cs (0 + routes.calculateProfit c price)
  have e : routes.portfolioProfit (c :: cs) price
      = cs.foldl (fun profit contract => profit + routes.calculateProfit contract price)
          (0 + routes.calculateProfit c price) := rfl
  rw [e, h]
  ring

/-- The curve loop, run `m` times from price `a`, appends the points of prices
`a + i * step`, `i < m`. -/
theorem iterPrice_graph (P : ℚ → ℚ) (step : ℚ) :
    ∀ (m : Nat) (a : ℚ) (acc : List GraphPoint),
      iterPrice step (fun price (graphData : List GraphPoint) => graphData ++ [⟨price, P price⟩])
          m a acc
        = acc ++ (List.range m).map
            (fun i : Nat => (⟨a + i * step, P (a + i * step)⟩ : GraphPoint)) := by
  intro m
  induction m with
  | zero => intro a acc; simp [iterPrice]
  | succ n ih =>
    intro a acc
    simp only [iterPrice]
    rw [ih, List.range_succ_eq_map, List.map_cons, List.map_map, List.append_assoc]
    congr 1
    simp only [List.singleton_append, Nat.cast_zero, zero_mul, add_zero]
    congr 1
    apply List.map_congr_left
    intro i _
    simp only [Function.comp, Nat.cast_succ]
    have e : a + step + (i : ℚ) * step = a + ((i : ℚ) + 1) * step := by ring
    rw [e]

/-- When the guard of `calculateGraphData` holds at its first `m` prices and fails
at the next one, the function returns the `m` points of these prices. -/
theorem calculateGraphData_of_count (cs : List OptionsContract) (m k : Nat)
    (h1 : ∀ i : Nat, i < m →
      (routes.strikeRange cs).1 * (1 / 2) + i * ((routes.strikeRange cs).2 * 2 / 100)
        ≤ (routes.strikeRange cs).2 * (3 / 2))
    (h2 : (routes.strikeRange cs).2 * (3 / 2)
      < (routes.strikeRange cs).1 * (1 / 2) + m * ((routes.strikeRange cs).2 * 2 / 100)) :
    routes.calculateGraphData (m + 1 + k) cs
      = some ((List.range m).map
          (fun i : Nat =>
            (⟨(routes.strikeRange cs).1 * (1 / 2) + i * ((routes.strikeRange cs).2 * 2 / 100),
              routes.portfolioProfit cs
                ((routes.strikeRange cs).1 * (1 / 2)
                  + i * ((routes.strikeRange cs).2 * 2 / 100))⟩ : GraphPoint))) := by
  unfold routes.calculateGraphData
  simp only []
  rw [forPrice_eq_iterPrice _ _ _ _ _ _ k h1 h2, iterPrice_graph]
  simp

/-- C5 (evaluation at the failing input): for the straddle (Call strike 100 ask 4,
Put strike 100 ask 3) `routes.calculateMaxProfit` scans the single price 100 and
returns -7, while the curve of `routes.calculateGraphData` starts with the point
(50, 43). -/
theorem routes_straddle_maxProfit_below_curve :
    routes.calculateMaxProfit 2
        [⟨"Call", 100, 0, 4, 0, "long"⟩, ⟨"Put", 100, 0, 3, 0, "long"⟩]
      = some (((-7 : ℚ)) : WithBot ℚ)
    ∧ ∃ pts,
        routes.calculateGraphData 52
            [⟨"Call", 100, 0, 4, 0, "long"⟩, ⟨"Put", 100, 0, 3, 0, "long"⟩] = some pts
        ∧ pts.head? = some ⟨50, 43⟩ := by
  constructor
  · have hmin : routes.minStrikePrice
        [⟨"Call", 100, 0, 4, 0, "long"⟩, ⟨"Put", 100, 0, 3, 0, "long"⟩]
        = some (100 : ℚ) := by
      simp [routes.minStrikePrice]
      rfl
    have hmax : routes.maxStrikePrice
        [⟨"Call", 100, 0, 4, 0, "long"⟩, ⟨"Put", 100, 0, 3, 0, "long"⟩]
        = ((100 : ℚ) : WithBot ℚ) := by
      simp [routes.maxStrikePrice]
    have hP : routes.portfolioProfit
        [⟨"Call", 100, 0, 4, 0, "long"⟩, ⟨"Put", 100, 0, 3, 0, "long"⟩] 100 = -7 := by
      simp [routes.portfolioProfit, routes.calculateProfit, routes.calculateCallProfit,
        routes.calculatePutProfit]
      norm_num
    unfold routes.calculateMaxProfit
    rw [hmin, hmax]
    simp only [List.length_cons, List.length_nil, Nat.reduceAdd, OfNat.ofNat_ne_zero, if_false]
    rw [forPrice_eq_iterPrice 100 (1 / 2) _ 1 100 ⊥ 0
      (by intro i hi; interval_cases i; norm_num) (by norm_num)]
    simp only [iterPrice, hP]
    simp
  · have hsr : routes.strikeRange
        [⟨"Call", 100, 0, 4, 0, "long"⟩, ⟨"Put", 100, 0, 3, 0, "long"⟩] = (100, 100) := by
      simp [routes.strikeRange, List.enum]
    have h := calculateGraphData_of_count
      [⟨"Call", 100, 0, 4, 0, "long"⟩, ⟨"Put", 100, 0, 3, 0, "long"⟩] 51 0
      (by
        intro i hi
        have hi2 : (i : ℚ) ≤ 50 := by exact_mod_cast Nat.lt_succ_iff.mp hi
        rw [hsr]
        norm_num
        linarith)
      (by rw [hsr]; norm_num)
    refine ⟨_, h, ?_⟩
    rw [hsr, List.range_succ_eq_map]
    simp [routes.portfolioProfit, routes.calculateProfit, routes.calculateCallProfit,
      routes.calculatePutProfit]
    norm_num

/-- C10 (counterexample): for the single contract of strike 100 (domain [50, 150],
step 2) the curve has 51 points, not 100. -/
theorem routes_curve_strike_100_has_51_points :
    ∃ pts, routes.calculateGraphData 52 [⟨"Call", 100, 0, 5, 0, "long"⟩] = some pts
      ∧ pts.length = 51 ∧ pts.length ≠ 100 := by
  have hsr : routes.strikeRange [⟨"Call", 100, 0, 5, 0, "long"⟩] = (100, 100) := by
    simp [routes.strikeRange, List.enum]
  have h := calculateGraphData_of_count [⟨"Call", 100, 0, 5, 0, "long"⟩] 51 0
    (by
      intro i hi
      have hi2 : (i : ℚ) ≤ 50 := by exact_mod_cast Nat.lt_succ_iff.mp hi
      rw [hsr]
      norm_num
      linarith)
    (by rw [hsr]; norm_num)
  refine ⟨_, h, ?_, ?_⟩ <;> simp

/-! ## The loss scan against the curve in package `routes` -/

/-- The loss scan never ends above its start nor above the profit at a scanned
price. -/
theorem iterPrice_minLoss_le (P : ℚ → ℚ) (step : ℚ) :
    ∀ (m : Nat) (a st : ℚ),
      iterPrice step (fun price maxLoss => if P price < maxLoss then P price else maxLoss) m a st
          ≤ st
      ∧ ∀ i : Nat, i < m →
          iterPrice step (fun price maxLoss => if P price < maxLoss then P price else maxLoss)
            m a st ≤ P (a + i * step) := by
  intro m
  induction m with
  | zero =>
    intro a st
    exact ⟨le_rfl, fun i hi => absurd hi (Nat.not_lt_zero i)⟩
  | succ n ih =>
    intro a st
    simp only [iterPrice]
    obtain ⟨h1, h2⟩ := ih (a + step) (if P a < st then P a else st)
    have hb : (if P a < st then P a else st) ≤ st ∧ (if P a < st then P a else st) ≤ P a := by
      split_ifs with h
      · exact ⟨le_of_lt h, le_rfl⟩
      · exact ⟨le_rfl, not_lt.mp h⟩
    refine ⟨le_trans h1 hb.1, ?_⟩
    intro i hi
    cases i with
    | zero =>
      simp only [Nat.cast_zero, zero_mul, add_zero]
      exact le_trans h1 hb.2
    | succ j =>
      have := h2 j (Nat.lt_of_succ_lt_succ hi)
      have e : a + step + (j : ℚ) * step = a + ((j + 1 : Nat) : ℚ) * step := by
        push_cast; ring
      rw [e] at this
      exact this

/-- The loss scan ends above every lower bound of its start and of the profits at
the scanned prices. -/
theorem iterPrice_minLoss_ge (P : ℚ → ℚ) (step lb : ℚ) :
    ∀ (m : Nat) (a st : ℚ), lb ≤ st → (∀ i : Nat, i < m → lb ≤ P (a + i * step)) →
      lb ≤ iterPrice step
        (fun price maxLoss => if P price < maxLoss then P price else maxLoss) m a st := by
  intro m
  induction m with
  | zero => intro a st hst _; exact hst
  | succ n ih =>
    intro a st hst hP
    simp only [iterPrice]
    apply ih
    · have h0 := hP 0 (Nat.succ_pos n)
      simp only [Nat.cast_zero, zero_mul, add_zero] at h0
      split_ifs
      · exact h0
      · exact hst
    · intro i hi
      have := hP (i + 1) (Nat.succ_lt_succ hi)
      have e : a + step + (i : ℚ) * step = a + ((i + 1 : Nat) : ℚ) * step := by
        push_cast; ring
      rw [e]
      exact this

/-- In package `routes` a call is paid `max(0, price - strike) - ask`. -/
theorem calculateCallProfit_eq_max (c : OptionsContract) (x : ℚ) :
    routes.calculateCallProfit c x = max 0 (x - c.StrikePrice) - c.Ask := by
  unfold routes.calculateCallProfit
  split_ifs with h
  · rw [max_eq_left (by linarith)]; ring
  · rw [max_eq_right (by linarith [not_le.mp h])]

/-- In package `routes` a put is paid `max(0, strike - price) - ask`. -/
theorem calculatePutProfit_eq_max (c : OptionsContract) (x : ℚ) :
    routes.calculatePutProfit c x = max 0 (c.StrikePrice - x) - c.Ask := by
  unfold routes.calculatePutProfit
  split_ifs with h
  · rw [max_eq_left (by linarith)]; ring
  · rw [max_eq_right (by linarith [not_le.mp h])]

/-- Between two consecutive whole prices the payoff of a contract of whole strike
is the interpolation of its values at the two prices. -/
theorem routes_calculateProfit_affine (c : OptionsContract) (kc : Nat)
    (hk : c.StrikePrice = kc) (n : Nat) (t : ℚ) (ht0 : 0 ≤ t) (ht1 : t ≤ 1) :
    routes.calculateProfit c ((n : ℚ) + t)
      = (1 - t) * routes.calculateProfit c n + t * routes.calculateProfit c ((n : ℚ) + 1) := by
  unfold routes.calculateProfit
  rw [calculateCallProfit_eq_max, calculateCallProfit_eq_max, calculateCallProfit_eq_max,
    calculatePutProfit_eq_max, calculatePutProfit_eq_max, calculatePutProfit_eq_max, hk]
  rcases Nat.lt_or_ge n kc with hlt | hge
  · have h1 : (n : ℚ) + 1 ≤ kc := by exact_mod_cast hlt
    rw [max_eq_left (by linarith : (n : ℚ) + t - kc ≤ 0),
      max_eq_left (by linarith : (n : ℚ) - kc ≤ 0),
      max_eq_left (by linarith : (n : ℚ) + 1 - kc ≤ 0),
      max_eq_right (by linarith : 0 ≤ (kc : ℚ) - (n + t)),
      max_eq_right (by linarith : 0 ≤ (kc : ℚ) - n),
      max_eq_right (by linarith : 0 ≤ (kc : ℚ) - (n + 1))]
    split_ifs <;> ring
  · have h1 : (kc : ℚ) ≤ n := by exact_mod_cast hge
    rw [max_eq_right (by linarith : 0 ≤ (n : ℚ) + t - kc),
      max_eq_right (by linarith : 0 ≤ (n : ℚ) - kc),
      max_eq_right (by linarith : 0 ≤ (n : ℚ) + 1 - kc),
      max_eq_left (by linarith : (kc : ℚ) - (n + t) ≤ 0),
      max_eq_left (by linarith : (kc : ℚ) - n ≤ 0),
      max_eq_left (by linarith : (kc : ℚ) - (n + 1) ≤ 0)]
    split_ifs <;> ring

/-- Between two consecutive whole prices the profit of a portfolio of whole
strikes is the interpolation of its values at the two prices. -/
theorem routes_portfolioProfit_affine (cs : List OptionsContract)
    (hint : ∀ c ∈ cs, ∃ k : Nat, c.StrikePrice = k) (n : Nat) (t : ℚ) (ht0 : 0 ≤ t)
    (ht1 : t ≤ 1) :
    routes.portfolioProfit cs ((n : ℚ) + t)
      = (1 - t) * routes.portfolioProfit cs n + t * routes.portfolioProfit cs ((n : ℚ) + 1) := by
  induction cs with
  | nil => simp [routes.portfolioProfit]
  | cons c cs ih =>
    obtain ⟨kc, hkc⟩ := hint c (List.mem_cons_self _ _)
    have ih2 := ih (fun d hd => hint d (List.mem_cons_of_mem _ hd))
    rw [routes_portfolioProfit_cons, routes_portfolioProfit_cons, routes_portfolioProfit_cons,
      ih2, routes_calculateProfit_affine c kc hkc n t ht0 ht1]
    ring

/-- C6 (counterexample): for the straddle of strike 12.5 (Call ask 4, Put ask 3)
the loss scan over the whole prices 0, ..., 25 returns -6.5, while the curve,
which starts at 6.25 and steps by 0.25, holds the point (12.5, -7). -/
theorem routes_maxLoss_above_curve_half_strike :
    routes.calculateMaxLoss 27
        [⟨"Call", 25 / 2, 0, 4, 0, "long"⟩, ⟨"Put", 25 / 2, 0, 3, 0, "long"⟩]
      = some (-13 / 2)
    ∧ ∃ pts,
        routes.calculateGraphData 52
            [⟨"Call", 25 / 2, 0, 4, 0, "long"⟩, ⟨"Put", 25 / 2, 0, 3, 0, "long"⟩] = some pts
        ∧ (⟨25 / 2, -7⟩ : GraphPoint) ∈ pts := by
  have hP : ∀ x : ℚ, routes.portfolioProfit
      [⟨"Call", 25 / 2, 0, 4, 0, "long"⟩, ⟨"Put", 25 / 2, 0, 3, 0, "long"⟩] x
      = (max 0 (x - 25 / 2) - 4) + (max 0 (25 / 2 - x) - 3) := by
    intro x
    rw [routes_portfolioProfit_cons, routes_portfolioProfit_cons]
    simp [routes.portfolioProfit, routes.calculateProfit, calculateCallProfit_eq_max,
      calculatePutProfit_eq_max]
  constructor
  · have hmax : routes.maxStrikePrice
        [⟨"Call", 25 / 2, 0, 4, 0, "long"⟩, ⟨"Put", 25 / 2, 0, 3, 0, "long"⟩]
        = ((25 / 2 : ℚ) : WithBot ℚ) := by
      simp [routes.maxStrikePrice]
    unfold routes.calculateMaxLoss
    rw [hmax, WithBot.map_coe]
    rw [forPrice_eq_iterPrice (2 * (25 / 2)) 1 _ 26 0 0 0
      (by
        intro i hi
        have : (i : ℚ) ≤ 25 := by exact_mod_cast Nat.lt_succ_iff.mp hi
        linarith)
      (by norm_num)]
    congr 1
    apply le_antisymm
    · have h := (iterPrice_minLoss_le (routes.portfolioProfit
        [⟨"Call", 25 / 2, 0, 4, 0, "long"⟩, ⟨"Put", 25 / 2, 0, 3, 0, "long"⟩]) 1 26 0 0).2
        12 (by norm_num)
      rw [hP] at h
      refine le_trans h ?_
      rw [max_eq_left (by norm_num), max_eq_right (by norm_num)]
      norm_num
    · apply iterPrice_minLoss_ge
      · norm_num
      · intro i _
        rw [hP]
        rcases Nat.lt_or_ge i 13 with hlt | hge
        · have h1 : (i : ℚ) ≤ 12 := by exact_mod_cast Nat.lt_succ_iff.mp hlt
          rw [max_eq_left (by linarith), max_eq_right (by linarith)]
          linarith
        · have h1 : (13 : ℚ) ≤ i := by exact_mod_cast hge
          rw [max_eq_right (by linarith), max_eq_left (by linarith)]
          linarith
  · have hsr : routes.strikeRange
        [⟨"Call", 25 / 2, 0, 4, 0, "long"⟩, ⟨"Put", 25 / 2, 0, 3, 0, "long"⟩]
        = (25 / 2, 25 / 2) := by
      simp [routes.strikeRange, List.enum]
    have h := calculateGraphData_of_count
      [⟨"Call", 25 / 2, 0, 4, 0, "long"⟩, ⟨"Put", 25 / 2, 0, 3, 0, "long"⟩] 51 0
      (by
        intro i hi
        have hi2 : (i : ℚ) ≤ 50 := by exact_mod_cast Nat.lt_succ_iff.mp hi
        rw [hsr]
        norm_num
        linarith)
      (by rw [hsr]; norm_num)
    refine ⟨_, h, ?_⟩
    rw [hsr]
    refine List.mem_map.mpr ⟨25, by simp, ?_⟩
    rw [hP]
    norm_num

/-! ## The request handlers -/

/-- On the empty portfolio neither curve function returns, on any fuel. -/
theorem curve_nil_diverges (fuel : Nat) :
    routes.calculateGraphData fuel [] = none ∧ controllers.calculateXYValues fuel [] = none := by
  constructor
  · have h := forPrice_zero_step (((0 : ℚ) : WithBot ℚ))
      (fun price (graphData : List GraphPoint) =>
        graphData ++ [⟨price, routes.portfolioProfit [] price⟩]) 0 le_rfl fuel []
    simpa [routes.calculateGraphData, routes.strikeRange] using h
  · have h := forPrice_zero_step (((0 : ℚ) : WithBot ℚ))
      (fun price (xyValues : List controllers.XYValue) =>
        xyValues ++ [⟨price, controllers.portfolioProfit [] price⟩]) 0 le_rfl fuel []
    simpa [controllers.calculateXYValues, controllers.strikeRange] using h

/-- C12 (counterexample): for a portfolio of 0 contracts neither handler answers
with status 400; the length check lets it through to the analysis. -/
theorem handlers_empty_portfolio_not_rejected :
    ¬ ((∃ fuel r, routes.analyzeHandler fuel [] = some r ∧ r.status = 400)
      ∨ (∃ fuel r, controllers.AnalysisHandler fuel "POST" [] = some r ∧ r.status = 400)) := by
  rintro (⟨fuel, r, h, _⟩ | ⟨fuel, r, h, _⟩)
  · simp [routes.analyzeHandler, (curve_nil_diverges fuel).1] at h
  · simp [controllers.AnalysisHandler, (curve_nil_diverges fuel).2] at h

/-- C12 (amended): on a well-typed portfolio the handler of `/analyze` answers with
status 400 exactly when the portfolio holds more than 4 contracts (in `routes` and,
for a POST request, in `controllers`), and it answers with status 200 exactly when
the portfolio holds at most 4 contracts and the four computations return. -/
theorem handlers_reject_iff_more_than_four (fuel : Nat) (cs : List OptionsContract) :
    ((∃ r, routes.analyzeHandler fuel cs = some r ∧ r.status = 400) ↔ 4 < cs.length)
    ∧ ((∃ r, controllers.AnalysisHandler fuel "POST" cs = some r ∧ r.status = 400)
        ↔ 4 < cs.length)
    ∧ ((∃ r, routes.analyzeHandler fuel cs = some r ∧ r.status = 200)
        ↔ (cs.length ≤ 4 ∧ ∃ g mp ml be, routes.calculateGraphData fuel cs = some g
            ∧ routes.calculateMaxProfit fuel cs = some mp
            ∧ routes.calculateMaxLoss fuel cs = some ml
            ∧ routes.calculateBreakEvenPoints fuel cs = some be)) := by
  refine ⟨?_, ?_, ?_⟩
  · by_cases hlen : 4 < cs.length
    · simp [routes.analyzeHandler, hlen, HttpResponse.status]
    · simp only [routes.analyzeHandler, gt_iff_lt, hlen, if_false, iff_false]
      rintro ⟨r, h, hs⟩
      cases hg : routes.calculateGraphData fuel cs <;>
      cases hp : routes.calculateMaxProfit fuel cs <;>
      cases hl : routes.calculateMaxLoss fuel cs <;>
      cases hb : routes.calculateBreakEvenPoints fuel cs <;>
      simp [hg, hp, hl, hb] at h
      rw [← h] at hs
      simp [HttpResponse.status] at hs
  · by_cases hlen : 4 < cs.length
    · simp [controllers.AnalysisHandler, hlen, HttpResponse.status]
    · simp only [controllers.AnalysisHandler, gt_iff_lt, hlen, if_false, iff_false, ne_eq,
        not_true_eq_false]
      rintro ⟨r, h, hs⟩
      cases hg : controllers.calculateXYValues fuel cs <;>
      cases hp : controllers.calculateMaxProfit fuel cs <;>
      cases hl : controllers.calculateMaxLoss fuel cs <;>
      cases hb : controllers.calculateBreakEvenPoints fuel cs <;>
      simp [hg, hp, hl, hb] at h
      rw [← h] at hs
      simp [HttpResponse.status] at hs
  · by_cases hlen : 4 < cs.length
    · simp [routes.analyzeHandler, hlen, HttpResponse.status]
    · have hle : cs.length ≤ 4 := by omega
      simp only [routes.analyzeHandler, gt_iff_lt, hlen, if_false, hle, true_and]
      cases hg : routes.calculateGraphData fuel cs <;>
      cases hp : routes.calculateMaxProfit fuel cs <;>
      cases hl : routes.calculateMaxLoss fuel cs <;>
      cases hb : routes.calculateBreakEvenPoints fuel cs <;>
      simp [HttpResponse.status]

/-! ## Spelling of the option type and agreement of the two payoff functions -/

/-- C13 (counterexample): in package `routes` the type "call" is not paid like the
type "Call"; at strike 100, ask 5 and price 110 the first is paid 0 and the second 5. -/
theorem routes_type_matching_is_case_sensitive :
    ¬ ∀ (strike bid ask price : ℚ) (exp : Int) (pos : String),
        routes.calculateProfit ⟨"call", strike, bid, ask, exp, pos⟩ price
          = routes.calculateProfit ⟨"Call", strike, bid, ask, exp, pos⟩ price := by
  intro h
  have h0 := h 100 3 5 110 0 "long"
  simp [routes.calculateProfit, routes.calculateCallProfit] at h0
  norm_num at h0

/-- C13 (amended): the option type is matched exactly: `routes.calculateProfit` pays
0 for the spellings "call" and "put", and `controllers.calculateProfit` pays 0 for
the spellings "Call" and "Put". -/
theorem calculateProfit_other_case_pays_zero (strike bid ask price : ℚ) (exp : Int)
    (pos : String) :
    routes.calculateProfit ⟨"call", strike, bid, ask, exp, pos⟩ price = 0
    ∧ routes.calculateProfit ⟨"put", strike, bid, ask, exp, pos⟩ price = 0
    ∧ controllers.calculateProfit ⟨"Call", strike, bid, ask, exp, pos⟩ price = 0
    ∧ controllers.calculateProfit ⟨"Put", strike, bid, ask, exp, pos⟩ price = 0 := by
  refine ⟨?_, ?_, ?_, ?_⟩
  · simp [routes.calculateProfit]
  · simp [routes.calculateProfit]
  · simp [controllers.calculateProfit]
  · simp [controllers.calculateProfit]

/-- C20: `routes.calculateProfit` on a contract of type "Call", whatever its
position, equals `controllers.calculateProfit` on the same terms with type "call"
and position "long"; likewise for "Put" and "put". -/
theorem routes_profit_eq_controllers_long (strike bid ask price : ℚ) (exp : Int)
    (pos : String) :
    routes.calculateProfit ⟨"Call", strike, bid, ask, exp, pos⟩ price
        = controllers.calculateProfit ⟨"call", strike, bid, ask, exp, "long"⟩ price
    ∧ routes.calculateProfit ⟨"Put", strike, bid, ask, exp, pos⟩ price
        = controllers.calculateProfit ⟨"put", strike, bid, ask, exp, "long"⟩ price := by
  constructor
  · simp [routes.calculateProfit, controllers.calculateProfit, calculateCallProfit_eq_max]
  · simp [routes.calculateProfit, controllers.calculateProfit, calculatePutProfit_eq_max]

/-! ## Additivity of the curve -/

/-- The break-even loop of either package, run `m` times from the whole price `k`
with `previousProfit` the profit at `k - 1` (when `k` is not the first price),
appends the whole prices `p` of `k, ..., k + m - 1`, other than 0, at which the
profit `P` crosses zero between `p - 1` and `p`. -/
theorem iterPrice_breakEven_of_body (P : ℚ → ℚ) (body : ℚ → List ℚ × ℚ → List ℚ × ℚ)
    (hbody : ∀ (price : ℚ) (st : List ℚ × ℚ), body price st
      = (if price ≠ 0 ∧ ((st.2 < 0 ∧ P price ≥ 0) ∨ (st.2 > 0 ∧ P price ≤ 0)) then
          st.1 ++ [price] else st.1, P price)) :
    ∀ (m k : Nat) (acc : List ℚ) (prev : ℚ),
      (k ≠ 0 → prev = P ((k : ℚ) - 1)) →
      (iterPrice 1 body m (k : ℚ) (acc, prev)).1
        = acc ++ ((List.range' k m).filter (fun p : Nat => decide (p ≠ 0 ∧
            ((P ((p : ℚ) - 1) < 0 ∧ P p ≥ 0) ∨ (P ((p : ℚ) - 1) > 0 ∧ P p ≤ 0))))).map
            (fun p : Nat => (p : ℚ)) := by
  intro m
  induction m with
  | zero => intro k acc prev _; simp [iterPrice]
  | succ n ih =>
    intro k acc prev hprev
    have hk1 : ((k : ℚ) + 1) = ((k + 1 : Nat) : ℚ) := by push_cast; ring
    have hnext : (k + 1 ≠ 0 → P (k : ℚ) = P (((k + 1 : Nat) : ℚ) - 1)) := by
      intro _
      congr 1
      push_cast
      ring
    simp only [iterPrice, hbody, List.range'_succ, hk1]
    by_cases hk : k = 0
    · subst hk
      rw [ih 1 _ _ hnext]
      simp
    · have hp := hprev hk
      have hkq : (k : ℚ) ≠ 0 := by exact_mod_cast hk
      rw [ih (k + 1) _ _ hnext, hp]
      by_cases hc : (P ((k : ℚ) - 1) < 0 ∧ P k ≥ 0) ∨ (P ((k : ℚ) - 1) > 0 ∧ P k ≤ 0)
      · have hd : decide (k ≠ 0 ∧ ((P ((k : ℚ) - 1) < 0 ∧ P k ≥ 0)
            ∨ (P ((k : ℚ) - 1) > 0 ∧ P k ≤ 0))) = true := decide_eq_true ⟨hk, hc⟩
        rw [List.filter_cons, if_pos ⟨hkq, hc⟩, if_pos hd]
        simp
      · have hd : ¬ (decide (k ≠ 0 ∧ ((P ((k : ℚ) - 1) < 0 ∧ P k ≥ 0)
            ∨ (P ((k : ℚ) - 1) > 0 ∧ P k ≤ 0))) = true) := by
          simp only [decide_eq_true_eq]
          exact fun h => hc h.2
        rw [List.filter_cons, if_neg (fun h => hc h.2), if_neg hd]

/-- A break-even scan over the whole prices `0, ..., N` returns the prices of a
list `good` as soon as the crossings of the profit `P` are the members of `good`. -/
theorem breakEven_scan (P : ℚ → ℚ) (body : ℚ → List ℚ × ℚ → List ℚ × ℚ)
    (hbody : ∀ (price : ℚ) (st : List ℚ × ℚ), body price st
      = (if price ≠ 0 ∧ ((st.2 < 0 ∧ P price ≥ 0) ∨ (st.2 > 0 ∧ P price ≤ 0)) then
          st.1 ++ [price] else st.1, P price))
    (N k : Nat) (good : List Nat)
    (hgood : ∀ p : Nat, p < N + 1 →
      ((p ≠ 0 ∧ ((P ((p : ℚ) - 1) < 0 ∧ P p ≥ 0) ∨ (P ((p : ℚ) - 1) > 0 ∧ P p ≤ 0)))
        ↔ p ∈ good)) :
    (forPrice (((N : ℚ)) : WithBot ℚ) 1 body (N + 1 + 1 + k) 0 ([], 0)).map Prod.fst
      = some (((List.range' 0 (N + 1)).filter (fun p : Nat => decide (p ∈ good))).map
          (fun p : Nat => (p : ℚ))) := by
  have hrun := forPrice_eq_iterPrice (N : ℚ) 1 body (N + 1) 0 ([], 0) k
    (by
      intro i hi
      have : (i : ℚ) ≤ N := by exact_mod_cast Nat.lt_succ_iff.mp hi
      linarith)
    (by push_cast; linarith)
  have hiter := iterPrice_breakEven_of_body P body hbody (N + 1) 0 [] 0
    (fun h => absurd rfl h)
  rw [Nat.cast_zero] at hiter
  rw [hrun, Option.map_some', hiter, List.nil_append]
  congr 2
  apply List.filter_congr
  intro p hp
  have hlt : p < N + 1 := by
    have := (List.mem_range'_1.mp hp).2
    omega
  exact decide_eq_decide.mpr (hgood p hlt)

/-- The profit of the straddle of strike 100 (Call ask 4, Put ask 3) in `routes`. -/
theorem routes_straddle_profit (x : ℚ) :
    routes.portfolioProfit
        [⟨"Call", 100, 0, 4, 0, "long"⟩, ⟨"Put", 100, 0, 3, 0, "long"⟩] x
      = (max 0 (x - 100) - 4) + (max 0 (100 - x) - 3) := by
  rw [routes_portfolioProfit_cons, routes_portfolioProfit_cons]
  simp [routes.portfolioProfit, routes.calculateProfit, calculateCallProfit_eq_max,
    calculatePutProfit_eq_max]

/-- C14: for the straddle [Call strike 100 ask 4 long, Put strike 100 ask 3 long]
`routes.calculateMaxLoss` returns -7 and `routes.calculateBreakEvenPoints` returns
exactly [93, 107]; neither 94 nor 108 is reported. -/
theorem routes_straddle_maxLoss_and_breakEvens (k : Nat) :
    routes.calculateMaxLoss (202 + k)
        [⟨"Call", 100, 0, 4, 0, "long"⟩, ⟨"Put", 100, 0, 3, 0, "long"⟩] = some (-7)
    ∧ routes.portfolioProfit
        [⟨"Call", 100, 0, 4, 0, "long"⟩, ⟨"Put", 100, 0, 3, 0, "long"⟩] 100 = -7
    ∧ routes.calculateBreakEvenPoints (202 + k)
        [⟨"Call", 100, 0, 4, 0, "long"⟩, ⟨"Put", 100, 0, 3, 0, "long"⟩] = some [93, 107] := by
  have hmax : routes.maxStrikePrice
      [⟨"Call", 100, 0, 4, 0, "long"⟩, ⟨"Put", 100, 0, 3, 0, "long"⟩]
      = ((100 : ℚ) : WithBot ℚ) := by
    simp [routes.maxStrikePrice]
  have hfuel : 202 + k = 200 + 1 + 1 + k := by omega
  have h200 : (2 * 100 : ℚ) = ((200 : Nat) : ℚ) := by norm_num
  refine ⟨?_, ?_, ?_⟩
  · unfold routes.calculateMaxLoss
    rw [hmax, WithBot.map_coe, hfuel]
    rw [forPrice_eq_iterPrice (2 * 100) 1 _ (200 + 1) 0 0 k
      (by
        intro i hi
        have : (i : ℚ) ≤ 200 := by exact_mod_cast Nat.lt_succ_iff.mp hi
        linarith)
      (by norm_num)]
    congr 1
    apply le_antisymm
    · have h := (iterPrice_minLoss_le (routes.portfolioProfit
        [⟨"Call", 100, 0, 4, 0, "long"⟩, ⟨"Put", 100, 0, 3, 0, "long"⟩]) 1 (200 + 1) 0 0).2
        100 (by norm_num)
      rw [routes_straddle_profit] at h
      refine le_trans h ?_
      norm_num
    · apply iterPrice_minLoss_ge
      · norm_num
      · intro i _
        rw [routes_straddle_profit]
        have h1 := le_max_left (0 : ℚ) (0 + (i : ℚ) * 1 - 100)
        have h2 := le_max_left (0 : ℚ) (100 - (0 + (i : ℚ) * 1))
        linarith
  · rw [routes_straddle_profit]
    norm_num
  · unfold routes.calculateBreakEvenPoints
    rw [hmax, WithBot.map_coe, hfuel, h200]
    rw [breakEven_scan (routes.portfolioProfit
        [⟨"Call", 100, 0, 4, 0, "long"⟩, ⟨"Put", 100, 0, 3, 0, "long"⟩])
      (routes.breakEvenBody
        [⟨"Call", 100, 0, 4, 0, "long"⟩, ⟨"Put", 100, 0, 3, 0, "long"⟩])
      (fun _ _ => rfl) 200 k [93, 107]]
    · have hf : (List.range' 0 (200 + 1)).filter (fun p : Nat => decide (p ∈ [93, 107]))
          = [93, 107] := by decide
      rw [hf]
      simp
    · intro p hp
      rw [routes_straddle_profit, routes_straddle_profit]
      rcases Nat.lt_or_ge p 101 with hlt | hge
      · have h1 : (p : ℚ) ≤ 100 := by exact_mod_cast Nat.lt_succ_iff.mp hlt
        rw [max_eq_left (by linarith : (p : ℚ) - 1 - 100 ≤ 0),
          max_eq_right (by linarith : 0 ≤ 100 - ((p : ℚ) - 1)),
          max_eq_left (by linarith : (p : ℚ) - 100 ≤ 0),
          max_eq_right (by linarith : 0 ≤ 100 - (p : ℚ))]
        constructor
        · rintro ⟨_, ⟨h2, h3⟩ | ⟨h2, h3⟩⟩
          · linarith
          · have a1 : (93 : ℚ) ≤ p := by linarith
            have a2 : (p : ℚ) < 94 := by linarith
            have b1 : 93 ≤ p := by exact_mod_cast a1
            have b2 : p < 94 := by exact_mod_cast a2
            have : p = 93 := by omega
            simp [this]
        · intro hm
          have : p = 93 := by
            simp only [List.mem_cons, List.mem_singleton, List.not_mem_nil, or_false] at hm
            omega
          subst this
          norm_num
      · have h1 : (101 : ℚ) ≤ p := by exact_mod_cast hge
        rw [max_eq_right (by linarith : 0 ≤ (p : ℚ) - 1 - 100),
          max_eq_left (by linarith : 100 - ((p : ℚ) - 1) ≤ 0),
          max_eq_right (by linarith : 0 ≤ (p : ℚ) - 100),
          max_eq_left (by linarith : 100 - (p : ℚ) ≤ 0)]
        constructor
        · rintro ⟨_, ⟨h2, h3⟩ | ⟨h2, h3⟩⟩
          · have a1 : (107 : ℚ) ≤ p := by linarith
            have a2 : (p : ℚ) < 108 := by linarith
            have b1 : 107 ≤ p := by exact_mod_cast a1
            have b2 : p < 108 := by exact_mod_cast a2
            have : p = 107 := by omega
            simp [this]
          · linarith
        · intro hm
          have : p = 107 := by
            simp only [List.mem_cons, List.mem_singleton, List.not_mem_nil, or_false] at hm
            omega
          subst this
          norm_num

/-- C15: for the long call of strike 100 and ask 5 `routes.calculateProfit` returns
-5 at price 90, -5 at price 100, 5 at price 110 and 0 at price 105, and
`routes.calculateBreakEvenPoints` of the one-contract portfolio returns exactly [105]. -/
theorem routes_long_call_scenario (k : Nat) :
    routes.calculateProfit ⟨"Call", 100, 0, 5, 0, "long"⟩ 90 = -5
    ∧ routes.calculateProfit ⟨"Call", 100, 0, 5, 0, "long"⟩ 100 = -5
    ∧ routes.calculateProfit ⟨"Call", 100, 0, 5, 0, "long"⟩ 110 = 5
    ∧ routes.calculateProfit ⟨"Call", 100, 0, 5, 0, "long"⟩ 105 = 0
    ∧ routes.calculateBreakEvenPoints (202 + k) [⟨"Call", 100, 0, 5, 0, "long"⟩]
        = some [105] := by
  have hP : ∀ x : ℚ, routes.portfolioProfit [⟨"Call", 100, 0, 5, 0, "long"⟩] x
      = max 0 (x - 100) - 5 := by
    intro x
    rw [routes_portfolioProfit_cons]
    simp [routes.portfolioProfit, routes.calculateProfit, calculateCallProfit_eq_max]
  have hc : ∀ x : ℚ, routes.calculateProfit ⟨"Call", 100, 0, 5, 0, "long"⟩ x
      = max 0 (x - 100) - 5 := by
    intro x
    simp [routes.calculateProfit, calculateCallProfit_eq_max]
  have hmax : routes.maxStrikePrice [⟨"Call", 100, 0, 5, 0, "long"⟩]
      = ((100 : ℚ) : WithBot ℚ) := by
    simp [routes.maxStrikePrice]
  have hfuel : 202 + k = 200 + 1 + 1 + k := by omega
  have h200 : (2 * 100 : ℚ) = ((200 : Nat) : ℚ) := by norm_num
  refine ⟨?_, ?_, ?_, ?_, ?_⟩
  · rw [hc]; norm_num
  · rw [hc]; norm_num
  · rw [hc]; norm_num
  · rw [hc]; norm_num
  · unfold routes.calculateBreakEvenPoints
    rw [hmax, WithBot.map_coe, hfuel, h200]
    rw [breakEven_scan (routes.portfolioProfit [⟨"Call", 100, 0, 5, 0, "long"⟩])
      (routes.breakEvenBody [⟨"Call", 100, 0, 5, 0, "long"⟩])
      (fun _ _ => rfl) 200 k [105]]
    · have hf : (List.range' 0 (200 + 1)).filter (fun p : Nat => decide (p ∈ [105]))
          = [105] := by decide
      rw [hf]
      simp
    · intro p hp
      rw [hP, hP]
      rcases Nat.lt_or_ge p 101 with hlt | hge
      · have h1 : (p : ℚ) ≤ 100 := by exact_mod_cast Nat.lt_succ_iff.mp hlt
        rw [max_eq_left (by linarith : (p : ℚ) - 1 - 100 ≤ 0),
          max_eq_left (by linarith : (p : ℚ) - 100 ≤ 0)]
        constructor
        · rintro ⟨_, ⟨h2, h3⟩ | ⟨h2, h3⟩⟩
          · linarith
          · linarith
        · intro hm
          simp only [List.mem_singleton] at hm
          omega
      · have h1 : (101 : ℚ) ≤ p := by exact_mod_cast hge
        rw [max_eq_right (by linarith : 0 ≤ (p : ℚ) - 1 - 100),
          max_eq_right (by linarith : 0 ≤ (p : ℚ) - 100)]
        constructor
        · rintro ⟨_, ⟨h2, h3⟩ | ⟨h2, h3⟩⟩
          · have a1 : (105 : ℚ) ≤ p := by linarith
            have a2 : (p : ℚ) < 106 := by linarith
            have b1 : 105 ≤ p := by exact_mod_cast a1
            have b2 : p < 106 := by exact_mod_cast a2
            have : p = 105 := by omega
            simp [this]
          · linarith
        · intro hm
          have : p = 105 := by simpa using hm
          subst this
          norm_num

/-- C16: for the short put of strike 50 and bid 3, whatever its ask,
`controllers.calculateProfit` returns 3 at price 60 and -7 at price 40, and
`controllers.calculateBreakEvenPoints` of the one-contract portfolio returns
exactly [47]. -/
theorem controllers_short_put_scenario (ask : ℚ) (k : Nat) :
    controllers.calculateProfit ⟨"put", 50, 3, ask, 0, "short"⟩ 60 = 3
    ∧ controllers.calculateProfit ⟨"put", 50, 3, ask, 0, "short"⟩ 40 = -7
    ∧ controllers.calculateBreakEvenPoints (102 + k) [⟨"put", 50, 3, ask, 0, "short"⟩]
        = some [47] := by
  have hc : ∀ x : ℚ, controllers.calculateProfit ⟨"put", 50, 3, ask, 0, "short"⟩ x
      = 3 - max 0 (50 - x) := by
    intro x
    simp [controllers.calculateProfit]
  have hP : ∀ x : ℚ, controllers.portfolioProfit [⟨"put", 50, 3, ask, 0, "short"⟩] x
      = 3 - max 0 (50 - x) := by
    intro x
    simp [controllers.portfolioProfit, hc]
  have hmax : controllers.maxStrikePrice [⟨"put", 50, 3, ask, 0, "short"⟩] = 50 := by
    simp [controllers.maxStrikePrice]
  have hfuel : 102 + k = 100 + 1 + 1 + k := by omega
  have h100 : (2 * 50 : ℚ) = ((100 : Nat) : ℚ) := by norm_num
  refine ⟨?_, ?_, ?_⟩
  · rw [hc]; norm_num
  · rw [hc]; norm_num
  · unfold controllers.calculateBreakEvenPoints
    rw [hmax, hfuel, h100]
    rw [breakEven_scan (controllers.portfolioProfit [⟨"put", 50, 3, ask, 0, "short"⟩])
      (controllers.breakEvenBody [⟨"put", 50, 3, ask, 0, "short"⟩])
      (fun _ _ => rfl) 100 k [47]]
    · have hf : (List.range' 0 (100 + 1)).filter (fun p : Nat => decide (p ∈ [47]))
          = [47] := by decide
      rw [hf]
      simp
    · intro p hp
      rw [hP, hP]
      rcases Nat.lt_or_ge p 51 with hlt | hge
      · have h1 : (p : ℚ) ≤ 50 := by exact_mod_cast Nat.lt_succ_iff.mp hlt
        rw [max_eq_right (by linarith : 0 ≤ 50 - ((p : ℚ) - 1)),
          max_eq_right (by linarith : 0 ≤ 50 - (p : ℚ))]
        constructor
        · rintro ⟨_, ⟨h2, h3⟩ | ⟨h2, h3⟩⟩
          · have a1 : (47 : ℚ) ≤ p := by linarith
            have a2 : (p : ℚ) < 48 := by linarith
            have b1 : 47 ≤ p := by exact_mod_cast a1
            have b2 : p < 48 := by exact_mod_cast a2
            have : p = 47 := by omega
            simp [this]
          · linarith
        · intro hm
          have : p = 47 := by simpa using hm
          subst this
          norm_num
      · have h1 : (51 : ℚ) ≤ p := by exact_mod_cast hge
        rw [max_eq_left (by linarith : 50 - ((p : ℚ) - 1) ≤ 0),
          max_eq_left (by linarith : 50 - (p : ℚ) ≤ 0)]
        constructor
        · rintro ⟨_, ⟨h2, h3⟩ | ⟨h2, h3⟩⟩
          · linarith
          · linarith
        · intro hm
          simp only [List.mem_singleton] at hm
          omega

/-- C17 (evaluation at the failing input): for the portfolio of a put of strike 10
and a call of strike 5, both of ask 1, the profit is at least 3 at every price,
yet `routes.calculateMaxLoss`, whose search starts from 0, returns 0. -/
theorem routes_maxLoss_starts_from_zero :
    routes.calculateMaxLoss 22
        [⟨"Put", 10, 0, 1, 0, "long"⟩, ⟨"Call", 5, 0, 1, 0, "long"⟩] = some 0
    ∧ ∀ price : ℚ, 3 ≤ routes.portfolioProfit
        [⟨"Put", 10, 0, 1, 0, "long"⟩, ⟨"Call", 5, 0, 1, 0, "long"⟩] price := by
  have hP : ∀ x : ℚ, routes.portfolioProfit
      [⟨"Put", 10, 0, 1, 0, "long"⟩, ⟨"Call", 5, 0, 1, 0, "long"⟩] x
      = (max 0 (10 - x) - 1) + (max 0 (x - 5) - 1) := by
    intro x
    rw [routes_portfolioProfit_cons, routes_portfolioProfit_cons]
    simp [routes.portfolioProfit, routes.calculateProfit, calculateCallProfit_eq_max,
      calculatePutProfit_eq_max]
  have h3 : ∀ price : ℚ, 3 ≤ routes.portfolioProfit
      [⟨"Put", 10, 0, 1, 0, "long"⟩, ⟨"Call", 5, 0, 1, 0, "long"⟩] price := by
    intro x
    rw [hP]
    have h1 := le_max_right (0 : ℚ) (10 - x)
    have h2 := le_max_right (0 : ℚ) (x - 5)
    linarith
  refine ⟨?_, h3⟩
  have hmax : routes.maxStrikePrice
      [⟨"Put", 10, 0, 1, 0, "long"⟩, ⟨"Call", 5, 0, 1, 0, "long"⟩]
      = ((10 : ℚ) : WithBot ℚ) := by
    norm_num [routes.maxStrikePrice]
  unfold routes.calculateMaxLoss
  rw [hmax, WithBot.map_coe]
  rw [forPrice_eq_iterPrice (2 * 10) 1 _ 21 0 0 0
    (by
      intro i hi
      have : (i : ℚ) ≤ 20 := by exact_mod_cast Nat.lt_succ_iff.mp hi
      linarith)
    (by norm_num)]
  congr 1
  apply le_antisymm
  · exact (iterPrice_minLoss_le _ 1 21 0 0).1
  · apply iterPrice_minLoss_ge
    · exact le_rfl
    · intro i _
      exact le_trans (by norm_num) (h3 _)

/-! ## Rounding to binary64 -/

/-- A rational within one half of an integer rounds to it. -/
theorem roundHalfEven_of_near (y : ℚ) (n : ℤ) (h : |y - n| < 1 / 2) : roundHalfEven y = n := by
  have h1 := abs_lt.mp h
  unfold roundHalfEven
  rcases le_or_lt (n : ℚ) y with hle | hlt
  · have hf : ⌊y⌋ = n := by
      rw [Int.floor_eq_iff]
      constructor
      · exact hle
      · linarith [h1.2]
    rw [hf, if_pos (by linarith [h1.2])]
  · have hf : ⌊y⌋ = n - 1 := by
      rw [Int.floor_eq_iff]
      push_cast
      constructor
      · linarith [h1.1]
      · linarith
    rw [hf]
    push_cast
    rw [if_neg (by linarith [h1.1]), if_pos (by linarith [h1.1])]
    ring

/-- An integer rounds to itself. -/
theorem roundHalfEven_intCast (n : ℤ) : roundHalfEven (n : ℚ) = n :=
  roundHalfEven_of_near _ n (by simp)

/-- A tie above an even integer rounds down to it. -/
theorem roundHalfEven_tie_even (n : ℤ) (hn : n % 2 = 0) :
    roundHalfEven ((n : ℚ) + 1 / 2) = n := by
  have hf : ⌊(n : ℚ) + 1 / 2⌋ = n := by
    rw [Int.floor_eq_iff]
    constructor <;> linarith
  unfold roundHalfEven
  rw [hf, if_neg (by linarith), if_neg (by linarith), if_pos hn]

/-- The unit in the last place of a value of magnitude in `[2 ^ (e + 52), 2 ^ (e + 53))`
has exponent `e`, subnormal range apart. -/
theorem ulpExp_eq (x : ℚ) (e : ℤ) (h1 : (2 : ℚ) ^ (e + 52) ≤ |x|) (h2 : |x| < (2 : ℚ) ^ (e + 53))
    (he : -1074 ≤ e) : ulpExp x = e := by
  have hpos : 0 < |x| := lt_of_lt_of_le (by positivity) h1
  have a1 : e + 52 ≤ Int.log 2 |x| :=
    (Int.zpow_le_iff_le_log (by norm_num) hpos).mp (by exact_mod_cast h1)
  have a2 : Int.log 2 |x| < e + 53 :=
    (Int.lt_zpow_iff_log_lt (by norm_num) hpos).mp (by exact_mod_cast h2)
  unfold ulpExp
  omega

/-- A value `m * 2 ^ e` of at most 53 significant bits, `e` not below the least
exponent, is a binary64 value: rounding leaves it unchanged. -/
theorem round64_of_repr (m e : ℤ) (hm : |m| < 2 ^ 53) (he : -1074 ≤ e) :
    round64 ((m : ℚ) * 2 ^ e) = (m : ℚ) * 2 ^ e := by
  by_cases hm0 : m = 0
  · subst hm0
    have h := roundHalfEven_intCast 0
    simp only [Int.cast_zero] at h
    simp [round64, h]
  · have h2e : (0 : ℚ) < 2 ^ e := by positivity
    have hxpos : 0 < |(m : ℚ) * 2 ^ e| := by
      rw [abs_pos]
      exact mul_ne_zero (by exact_mod_cast hm0) (ne_of_gt h2e)
    have hlt : |(m : ℚ) * 2 ^ e| < (2 : ℚ) ^ (e + 53) := by
      rw [abs_mul, abs_of_pos h2e, zpow_add₀ (by norm_num), mul_comm]
      apply mul_lt_mul_of_pos_left _ h2e
      have : ((|m| : ℤ) : ℚ) < ((2 ^ 53 : ℤ) : ℚ) := by exact_mod_cast hm
      rw [Int.cast_abs] at this
      norm_num at this ⊢
      exact this
    have hlog : Int.log 2 |(m : ℚ) * 2 ^ e| < e + 53 :=
      (Int.lt_zpow_iff_log_lt (by norm_num) hxpos).mp (by exact_mod_cast hlt)
    have hE : ulpExp ((m : ℚ) * 2 ^ e) ≤ e := by
      unfold ulpExp
      omega
    obtain ⟨d, hd⟩ := Int.le.dest hE
    have hpow : (2 : ℚ) ^ e = 2 ^ ulpExp ((m : ℚ) * 2 ^ e) * 2 ^ d := by
      conv_lhs => rw [← hd]
      rw [zpow_add₀ (by norm_num), zpow_natCast]
    have hEpos : (0 : ℚ) < 2 ^ ulpExp ((m : ℚ) * 2 ^ e) := by positivity
    have hq : (m : ℚ) * 2 ^ e / 2 ^ ulpExp ((m : ℚ) * 2 ^ e) = ((m * 2 ^ d : ℤ) : ℚ) := by
      rw [div_eq_iff (ne_of_gt hEpos)]
      push_cast
      conv_lhs => rw [hpow]
      ring
    unfold round64
    rw [hq, roundHalfEven_intCast]
    push_cast
    conv_rhs => rw [hpow]
    ring

/-- The whole numbers up to `2 ^ 53` are binary64 values. -/
theorem round64_natCast (n : ℕ) (hn : n ≤ 2 ^ 53) : round64 (n : ℚ) = n := by
  rcases Nat.lt_or_ge n (2 ^ 53) with hlt | hge
  · have h := round64_of_repr (n : ℤ) 0 (by rw [abs_of_nonneg (by positivity)]; exact_mod_cast hlt)
      (by norm_num)
    simpa using h
  · have hn2 : n = 2 ^ 53 := le_antisymm hn hge
    have h := round64_of_repr (2 ^ 52) 1 (by norm_num) (by norm_num)
    subst hn2
    norm_num at h ⊢
    exact h

/-- The halves `m / 2` with `|m| < 2 ^ 53` are binary64 values. -/
theorem round64_half (m : ℤ) (hm : |m| < 2 ^ 53) : round64 ((m : ℚ) / 2) = (m : ℚ) / 2 := by
  have h := round64_of_repr m (-1) hm (by norm_num)
  have e : (m : ℚ) * 2 ^ (-1 : ℤ) = (m : ℚ) / 2 := by
    rw [zpow_neg_one]; ring
  rw [e] at h
  exact h

/-- The grid values `m / 1024` with `|m| < 2 ^ 53` are binary64 values. -/
theorem round64_grid (m : ℤ) (hm : |m| < 2 ^ 53) :
    round64 ((m : ℚ) / 1024) = (m : ℚ) / 1024 := by
  have h := round64_of_repr m (-10) hm (by norm_num)
  have e : (m : ℚ) * 2 ^ (-10 : ℤ) = (m : ℚ) / 1024 := by
    rw [zpow_neg]; norm_num; ring
  rw [e] at h
  exact h

/-- A grid value below `2 ^ 43` in magnitude is a binary64 value. -/
theorem round64_onGrid (x : ℚ) (hg : OnGrid x) (hx : |x| < 2 ^ 43) : round64 x = x := by
  obtain ⟨m, rfl⟩ := hg
  apply round64_grid
  have h1 : |(m : ℚ)| < 2 ^ 53 := by
    rw [abs_div, abs_of_pos (by norm_num : (0 : ℚ) < 1024), div_lt_iff₀ (by norm_num)] at hx
    calc |(m : ℚ)| < 2 ^ 43 * 1024 := hx
      _ = 2 ^ 53 := by norm_num
  have h2 : ((|m| : ℤ) : ℚ) < ((2 ^ 53 : ℤ) : ℚ) := by
    rw [Int.cast_abs]
    norm_num at h1 ⊢
    exact h1
  exact_mod_cast h2

/-- Sums of grid values are grid values. -/
theorem onGrid_add (x y : ℚ) (hx : OnGrid x) (hy : OnGrid y) : OnGrid (x + y) := by
  obtain ⟨a, rfl⟩ := hx
  obtain ⟨b, rfl⟩ := hy
  exact ⟨a + b, by push_cast; ring⟩

/-- Differences of grid values are grid values. -/
theorem onGrid_sub (x y : ℚ) (hx : OnGrid x) (hy : OnGrid y) : OnGrid (x - y) := by
  obtain ⟨a, rfl⟩ := hx
  obtain ⟨b, rfl⟩ := hy
  exact ⟨a - b, by push_cast; ring⟩

/-- Opposites of grid values are grid values. -/
theorem onGrid_neg (x : ℚ) (hx : OnGrid x) : OnGrid (-x) := by
  obtain ⟨a, rfl⟩ := hx
  exact ⟨-a, by push_cast; ring⟩

/-- The halves of whole numbers are grid values. -/
theorem onGrid_half (n : ℤ) : OnGrid ((n : ℚ) / 2) :=
  ⟨512 * n, by push_cast; ring⟩

/-- The whole numbers are grid values. -/
theorem onGrid_intCast (n : ℤ) : OnGrid (n : ℚ) :=
  ⟨1024 * n, by push_cast; ring⟩

/-! ## The rounded price loop -/

/-- When the guard holds at the first `m` prices `a + i * step`, fails at the next
one, and each of the `m` additions is exact in binary64, the rounded loop runs the
body `m` times at these prices and returns, on any fuel above `m`. -/
theorem forPrice64_eq_iterPrice {σ : Type} (b step : ℚ) (body : ℚ → σ → σ) :
    ∀ (m : Nat) (a : ℚ) (st : σ) (k : Nat),
      (∀ i : Nat, i < m → a + i * step ≤ b) → b < a + m * step →
      (∀ i : Nat, i < m → round64 (a + i * step + step) = a + i * step + step) →
      forPrice64 (b : WithBot ℚ) step body (m + 1 + k) a st
        = some (iterPrice step body m a st) := by
  intro m
  induction m with
  | zero =>
    intro a st k _ hlt _
    have hlt2 : b < a := by simpa using hlt
    have hn : ¬ ((a : WithBot ℚ) ≤ (b : WithBot ℚ)) := by
      rw [WithBot.coe_le_coe]; exact not_le.mpr hlt2
    have hk : 0 + 1 + k = k + 1 := by omega
    rw [hk]
    simp [forPrice64, iterPrice, hn]
  | succ n ih =>
    intro a st k hle hlt hex
    have h0 : a ≤ b := by simpa using hle 0 (Nat.succ_pos n)
    have hg : (a : WithBot ℚ) ≤ (b : WithBot ℚ) := WithBot.coe_le_coe.mpr h0
    have hk : n + 1 + 1 + k = (n + 1 + k) + 1 := by omega
    have hr : round64 (a + step) = a + step := by
      have := hex 0 (Nat.succ_pos n)
      simpa using this
    rw [hk]
    simp only [forPrice64, hg, if_true, iterPrice, hr]
    apply ih
    · intro i hi
      have := hle (i + 1) (Nat.succ_lt_succ hi)
      push_cast at this
      linarith
    · push_cast at hlt
      linarith
    · intro i hi
      have := hex (i + 1) (Nat.succ_lt_succ hi)
      push_cast at this
      have e : a + step + (i : ℚ) * step + step = a + ((i : ℚ) + 1) * step + step := by ring
      rw [e]
      exact this

/-- More fuel does not change a result of the rounded loop. -/
theorem forPrice64_fuel_mono {σ : Type} (hi : WithBot ℚ) (step : ℚ) (body : ℚ → σ → σ) :
    ∀ (fuel : Nat) (a : ℚ) (st r : σ) (k : Nat),
      forPrice64 hi step body fuel a st = some r →
      forPrice64 hi step body (fuel + k) a st = some r := by
  intro fuel
  induction fuel with
  | zero => intro a st r k h; simp [forPrice64] at h
  | succ n ih =>
    intro a st r k h
    have hk : n + 1 + k = (n + k) + 1 := by omega
    rw [hk]
    by_cases hg : (a : WithBot ℚ) ≤ hi
    · simp only [forPrice64, hg, if_true] at h ⊢
      exact ih _ _ _ _ h
    · simp only [forPrice64, hg, if_false] at h ⊢
      exact h

/-- The result of the rounded loop does not depend on the fuel on which it returns. -/
theorem forPrice64_deterministic {σ : Type} (hi : WithBot ℚ) (step : ℚ) (body : ℚ → σ → σ)
    (n1 n2 : Nat) (a : ℚ) (st r1 r2 : σ)
    (h1 : forPrice64 hi step body n1 a st = some r1)
    (h2 : forPrice64 hi step body n2 a st = some r2) : r1 = r2 := by
  have e1 := forPrice64_fuel_mono hi step body n1 a st r1 n2 h1
  have e2 := forPrice64_fuel_mono hi step body n2 a st r2 n1 h2
  rw [Nat.add_comm] at e2
  rw [e1] at e2
  exact Option.some.inj e2

/-- A rounded loop whose prices stay in a set on which the guard holds never
returns. -/
theorem forPrice64_never {σ : Type} (hi : WithBot ℚ) (step : ℚ) (body : ℚ → σ → σ)
    (Inv : ℚ → Prop)
    (hInv : ∀ p : ℚ, Inv p → (p : WithBot ℚ) ≤ hi ∧ Inv (round64 (p + step))) :
    ∀ (fuel : Nat) (a : ℚ) (st : σ), Inv a → forPrice64 hi step body fuel a st = none := by
  intro fuel
  induction fuel with
  | zero => intro a st _; rfl
  | succ n ih =>
    intro a st ha
    obtain ⟨hg, hnext⟩ := hInv a ha
    simp only [forPrice64, hg, if_true]
    exact ih _ _ hnext

/-! ## The curve in the binary64 model -/

/-- Any two results of the rounded `calculateGraphData` on the same portfolio are
equal. -/
theorem calculateGraphData64_deterministic (cs : List OptionsContract) (n1 n2 : Nat)
    (r1 r2 : List GraphPoint) (h1 : routes64.calculateGraphData n1 cs = some r1)
    (h2 : routes64.calculateGraphData n2 cs = some r2) : r1 = r2 := by
  unfold routes64.calculateGraphData at h1 h2
  exact forPrice64_deterministic _ _ _ n1 n2 _ _ r1 r2 h1 h2

/-- On a non-empty portfolio of whole strikes up to `2 ^ 30` whose greatest strike is
a positive multiple of 25, `minStrike` is a whole number `kmin` and `maxStrike` is
`25 * j`, with `kmin ≤ 25 * j ≤ 2 ^ 30`. -/
theorem strikeRange_whole (cs : List OptionsContract) (hne : cs ≠ [])
    (hwhole : ∀ c ∈ cs, ∃ k : Nat, k ≤ 2 ^ 30 ∧ c.StrikePrice = k)
    (hmax : ∃ c ∈ cs, (∀ d ∈ cs, d.StrikePrice ≤ c.StrikePrice)
      ∧ ∃ j : Nat, 0 < j ∧ c.StrikePrice = 25 * j) :
    ∃ kmin j : Nat, 0 < j ∧ 25 * j ≤ 2 ^ 30 ∧ kmin ≤ 25 * j
      ∧ (routes.strikeRange cs).1 = kmin ∧ (routes.strikeRange cs).2 = 25 * (j : ℚ) := by
  obtain ⟨hlb, ⟨cm, hcm, hcme⟩, hub, ⟨cM, hcM, hcMe⟩⟩ := strikeRange_spec cs hne
  obtain ⟨c, hc, hcmax, j, hj, hcj⟩ := hmax
  obtain ⟨kmin, _, hkmin⟩ := hwhole cm hcm
  obtain ⟨kc, hkc, hkce⟩ := hwhole c hc
  have hmx : (routes.strikeRange cs).2 = 25 * (j : ℚ) := by
    apply le_antisymm
    · rw [← hcMe, ← hcj]; exact hcmax cM hcM
    · rw [← hcj]; exact hub c hc
  have hmn : (routes.strikeRange cs).1 = kmin := by rw [← hcme, hkmin]
  refine ⟨kmin, j, hj, ?_, ?_, hmn, hmx⟩
  · have : ((25 * j : Nat) : ℚ) = (kc : ℚ) := by
      push_cast
      rw [← hcj, hkce]
    have : 25 * j = kc := by exact_mod_cast this
    omega
  · have h1 : (routes.strikeRange cs).1 ≤ (routes.strikeRange cs).2 := by
      rw [← hcme]; exact hub cm hcm
    rw [hmn, hmx] at h1
    have : ((kmin : Nat) : ℚ) ≤ ((25 * j : Nat) : ℚ) := by
      push_cast
      exact h1
    exact_mod_cast this

/-- When `minStrike` is the whole number `kmin` and `maxStrike` is `25 * j`, with
`kmin ≤ 25 * j ≤ 2 ^ 30` and `j` positive, the bounds, the step and every
accumulated price of the curve loop are halves of whole numbers, which binary64
represents exactly: the rounded `calculateGraphData` returns the points of prices
`0.5 * minStrike + i * (2 * maxStrike / 100)` up to `1.5 * maxStrike`. -/
theorem calculateGraphData64_eq (cs : List OptionsContract) (kmin j : Nat) (hj : 0 < j)
    (hjb : 25 * j ≤ 2 ^ 30) (hk : kmin ≤ 25 * j)
    (hmn : (routes.strikeRange cs).1 = kmin) (hmx : (routes.strikeRange cs).2 = 25 * (j : ℚ))
    (k : Nat) :
    routes64.calculateGraphData
        (⌊((routes.strikeRange cs).2 * (3 / 2) - (routes.strikeRange cs).1 * (1 / 2))
            / ((routes.strikeRange cs).2 * 2 / 100)⌋₊ + 1 + 1 + k) cs
      = some ((List.range
          (⌊((routes.strikeRange cs).2 * (3 / 2) - (routes.strikeRange cs).1 * (1 / 2))
            / ((routes.strikeRange cs).2 * 2 / 100)⌋₊ + 1)).map
          (fun i : Nat =>
            (⟨(routes.strikeRange cs).1 * (1 / 2) + i * ((routes.strikeRange cs).2 * 2 / 100),
              routes64.portfolioProfit cs
                ((routes.strikeRange cs).1 * (1 / 2)
                  + i * ((routes.strikeRange cs).2 * 2 / 100))⟩ : GraphPoint))) := by
  have hjq : (0 : ℚ) < j := by exact_mod_cast hj
  have hjbq : (25 : ℚ) * j ≤ 2 ^ 30 := by exact_mod_cast hjb
  have hkq : (kmin : ℚ) ≤ 25 * j := by exact_mod_cast hk
  have hstep : 0 < (routes.strikeRange cs).2 * 2 / 100 := by rw [hmx]; positivity
  have hab : (routes.strikeRange cs).1 * (1 / 2) ≤ (routes.strikeRange cs).2 * (3 / 2) := by
    rw [hmn, hmx]; linarith
  obtain ⟨c1, c2⟩ := loop_count_spec _ _ _ hstep hab
  have r1 : round64 ((routes.strikeRange cs).1 * (1 / 2)) = (routes.strikeRange cs).1 * (1 / 2) := by
    have h := round64_half (kmin : ℤ) (by
      rw [abs_of_nonneg (by positivity)]
      have : kmin < 2 ^ 53 := by omega
      exact_mod_cast this)
    have e : (routes.strikeRange cs).1 * (1 / 2) = ((kmin : ℤ) : ℚ) / 2 := by
      rw [hmn]; push_cast; ring
    rw [e]; exact h
  have r2 : round64 ((routes.strikeRange cs).2 * (3 / 2)) = (routes.strikeRange cs).2 * (3 / 2) := by
    have h := round64_half ((75 * j : Nat) : ℤ) (by
      rw [abs_of_nonneg (by positivity)]
      have : 75 * j < 2 ^ 53 := by omega
      exact_mod_cast this)
    have e : (routes.strikeRange cs).2 * (3 / 2) = (((75 * j : Nat) : ℤ) : ℚ) / 2 := by
      rw [hmx]; push_cast; ring
    rw [e]; exact h
  have r3 : round64 ((routes.strikeRange cs).2 * 2) = (routes.strikeRange cs).2 * 2 := by
    have h := round64_natCast (50 * j) (by omega)
    have e : (routes.strikeRange cs).2 * 2 = ((50 * j : Nat) : ℚ) := by
      rw [hmx]; push_cast; ring
    rw [e]; exact h
  have r4 : round64 ((routes.strikeRange cs).2 * 2 / 100) = (routes.strikeRange cs).2 * 2 / 100 := by
    have h := round64_half (j : ℤ) (by
      rw [abs_of_nonneg (by positivity)]
      have : j < 2 ^ 53 := by omega
      exact_mod_cast this)
    have e : (routes.strikeRange cs).2 * 2 / 100 = ((j : ℤ) : ℚ) / 2 := by
      rw [hmx]; push_cast; ring
    rw [e]; exact h
  have hex : ∀ i : Nat,
      i < ⌊((routes.strikeRange cs).2 * (3 / 2) - (routes.strikeRange cs).1 * (1 / 2))
            / ((routes.strikeRange cs).2 * 2 / 100)⌋₊ + 1 →
      round64 ((routes.strikeRange cs).1 * (1 / 2) + i * ((routes.strikeRange cs).2 * 2 / 100)
          + (routes.strikeRange cs).2 * 2 / 100)
        = (routes.strikeRange cs).1 * (1 / 2) + i * ((routes.strikeRange cs).2 * 2 / 100)
          + (routes.strikeRange cs).2 * 2 / 100 := by
    intro i hi
    have hle := c1 i hi
    rw [hmn, hmx] at hle ⊢
    have hij : ((kmin + i * j : Nat) : ℚ) ≤ ((75 * j : Nat) : ℚ) := by
      push_cast
      linarith
    have hij2 : kmin + i * j ≤ 75 * j := by exact_mod_cast hij
    have h := round64_half ((kmin + (i + 1) * j : Nat) : ℤ) (by
      rw [abs_of_nonneg (by positivity)]
      have : kmin + (i + 1) * j < 2 ^ 53 := by
        have : (i + 1) * j = i * j + j := by ring
        omega
      exact_mod_cast this)
    have e : (kmin : ℚ) * (1 / 2) + (i : ℚ) * (25 * (j : ℚ) * 2 / 100) + 25 * (j : ℚ) * 2 / 100
        = (((kmin + (i + 1) * j : Nat) : ℤ) : ℚ) / 2 := by
      push_cast; ring
    rw [e]; exact h
  unfold routes64.calculateGraphData
  simp only []
  rw [r3, r4, r2, r1, forPrice64_eq_iterPrice _ _ _ _ _ _ k c1 c2 hex, iterPrice_graph]
  simp

/-- C10 (amended): in the binary64 model, for every non-empty portfolio whose
strikes are positive whole numbers up to `2 ^ 30` and whose greatest strike is a
multiple of 25 (so that the step `2 * maxStrike / 100` and every accumulated price
are exact), `calculateGraphData` returns exactly
`⌊(1.5 * maxStrike - 0.5 * minStrike) / (2 * maxStrike / 100)⌋ + 1` points, a number
between 51 and 75, where `minStrike` and `maxStrike` are the least and the greatest
strike. -/
theorem routes64_calculateGraphData_count (cs : List OptionsContract) (hne : cs ≠ [])
    (hwhole : ∀ c ∈ cs, ∃ k : Nat, 0 < k ∧ k ≤ 2 ^ 30 ∧ c.StrikePrice = k)
    (hmax : ∃ c ∈ cs, (∀ d ∈ cs, d.StrikePrice ≤ c.StrikePrice)
      ∧ ∃ j : Nat, 0 < j ∧ c.StrikePrice = 25 * j) :
    ∃ mn mx : ℚ,
      ((∀ c ∈ cs, mn ≤ c.StrikePrice) ∧ ∃ c ∈ cs, c.StrikePrice = mn)
      ∧ ((∀ c ∈ cs, c.StrikePrice ≤ mx) ∧ ∃ c ∈ cs, c.StrikePrice = mx)
      ∧ ∃ pts, (∃ fuel, routes64.calculateGraphData fuel cs = some pts)
        ∧ (∀ fuel r, routes64.calculateGraphData fuel cs = some r → r = pts)
        ∧ pts.length = ⌊(mx * (3 / 2) - mn * (1 / 2)) / (mx * 2 / 100)⌋₊ + 1
        ∧ 51 ≤ pts.length ∧ pts.length ≤ 75 := by
  obtain ⟨hlb, hmin, hub, hmaxm⟩ := strikeRange_spec cs hne
  obtain ⟨kmin, j, hj, hjb, hk, hmn, hmx⟩ := strikeRange_whole cs hne
    (fun c hc => by
      obtain ⟨k, _, hk2, hk3⟩ := hwhole c hc
      exact ⟨k, hk2, hk3⟩) hmax
  have h := calculateGraphData64_eq cs kmin j hj hjb hk hmn hmx 0
  have hmnpos : 0 < (routes.strikeRange cs).1 := by
    obtain ⟨c, hc, hce⟩ := hmin
    obtain ⟨k, hk1, _, hk3⟩ := hwhole c hc
    rw [← hce, hk3]
    exact_mod_cast hk1
  have hle : (routes.strikeRange cs).1 ≤ (routes.strikeRange cs).2 := by
    obtain ⟨c, hc, hce⟩ := hmin
    rw [← hce]; exact hub c hc
  have hstep : 0 < (routes.strikeRange cs).2 * 2 / 100 := by
    have : 0 < (routes.strikeRange cs).2 := lt_of_lt_of_le hmnpos hle
    positivity
  have hlo : ((50 : Nat) : ℚ)
      ≤ ((routes.strikeRange cs).2 * (3 / 2) - (routes.strikeRange cs).1 * (1 / 2))
          / ((routes.strikeRange cs).2 * 2 / 100) := by
    rw [le_div_iff₀ hstep]
    push_cast
    linarith
  have hhi : ((routes.strikeRange cs).2 * (3 / 2) - (routes.strikeRange cs).1 * (1 / 2))
          / ((routes.strikeRange cs).2 * 2 / 100) < ((75 : Nat) : ℚ) := by
    rw [div_lt_iff₀ hstep]
    push_cast
    linarith
  have hq : 0 ≤ ((routes.strikeRange cs).2 * (3 / 2) - (routes.strikeRange cs).1 * (1 / 2))
          / ((routes.strikeRange cs).2 * 2 / 100) := le_trans (by norm_num) hlo
  have f1 := Nat.le_floor hlo
  have f2 := (Nat.floor_lt hq).mpr hhi
  refine ⟨_, _, ⟨hlb, hmin⟩, ⟨hub, hmaxm⟩, _, ⟨_, h⟩, ?_, ?_, ?_, ?_⟩
  · intro fuel r hr
    exact calculateGraphData64_deterministic cs _ _ _ _ hr h
  · simp
  · simp only [List.length_map, List.length_range]
    omega
  · simp only [List.length_map, List.length_range]
    omega

/-- Witness of C10 (amended): the single contract of strike 100, whose curve has
51 points. -/
theorem routes64_calculateGraphData_count_witness :
    ∃ pts,
      (∃ fuel, routes64.calculateGraphData fuel [⟨"Call", 100, 0, 5, 0, "long"⟩] = some pts)
      ∧ pts.length = 51 := by
  obtain ⟨mn, mx, ⟨_, hmine⟩, ⟨_, hmaxe⟩, pts, hret, _, hlen, _, _⟩ :=
    routes64_calculateGraphData_count [⟨"Call", 100, 0, 5, 0, "long"⟩] (by simp)
      (by
        intro c hc
        simp only [List.mem_singleton] at hc
        subst hc
        exact ⟨100, by norm_num, by norm_num, by norm_num⟩)
      ⟨⟨"Call", 100, 0, 5, 0, "long"⟩, by simp, by simp, 4, by norm_num, by norm_num⟩
  have hmn : mn = 100 := by
    obtain ⟨c, hc, hce⟩ := hmine
    simp only [List.mem_singleton] at hc
    subst hc
    exact hce.symm
  have hmx : mx = 100 := by
    obtain ⟨c, hc, hce⟩ := hmaxe
    simp only [List.mem_singleton] at hc
    subst hc
    exact hce.symm
  subst hmn hmx
  refine ⟨pts, hret, ?_⟩
  have e : ((100 : ℚ) * (3 / 2) - 100 * (1 / 2)) / (100 * 2 / 100) = ((50 : Nat) : ℚ) := by
    norm_num
  rw [hlen, e, Nat.floor_natCast]

/-- The sum `2 ^ 53 + 1` is a tie between `2 ^ 53` and `2 ^ 53 + 2` and rounds to
`2 ^ 53`: adding 1.0 to the binary64 value `2 ^ 53` leaves it unchanged. -/
theorem round64_two_pow_53_add_one :
    round64 ((9007199254740992 : ℚ) + 1) = 9007199254740992 := by
  have hE : ulpExp ((9007199254740992 : ℚ) + 1) = 1 := by
    apply ulpExp_eq _ 1 _ _ (by norm_num)
    · norm_num [abs_of_pos]
    · norm_num [abs_of_pos]
  have hq : ((9007199254740992 : ℚ) + 1) / 2 ^ (1 : ℤ)
      = ((4503599627370496 : ℤ) : ℚ) + 1 / 2 := by norm_num
  unfold round64
  rw [hE, hq, roundHalfEven_tie_even _ (by norm_num)]
  norm_num

/-- The exact-zero boundary is decided by the rounding: for the contracts Call strike
100 ask 0.1, Call strike 100 ask 0.2 and Put strike 100 ask 0.7 (the asks being the
binary64 values nearest to these decimals) the rounded portfolio profit at price 99
is exactly 0, while the exact sum of the three payoffs is `2 ^ (-55)`. -/
theorem portfolioProfit64_zero_boundary :
    routes64.portfolioProfit
        [⟨"Call", 100, 0, 3602879701896397 / 36028797018963968, 0, "long"⟩,
         ⟨"Call", 100, 0, 3602879701896397 / 18014398509481984, 0, "long"⟩,
         ⟨"Put", 100, 0, 3152519739159347 / 4503599627370496, 0, "long"⟩] 99 = 0
    ∧ routes.portfolioProfit
        [⟨"Call", 100, 0, 3602879701896397 / 36028797018963968, 0, "long"⟩,
         ⟨"Call", 100, 0, 3602879701896397 / 18014398509481984, 0, "long"⟩,
         ⟨"Put", 100, 0, 3152519739159347 / 4503599627370496, 0, "long"⟩] 99
        = 1 / 36028797018963968 := by
  have r1 : round64 (-(3602879701896397 / 36028797018963968 : ℚ))
      = -(3602879701896397 / 36028797018963968) := by
    have h := round64_of_repr (-3602879701896397) (-55) (by norm_num) (by norm_num)
    have e : ((-3602879701896397 : ℤ) : ℚ) * 2 ^ (-55 : ℤ)
        = -(3602879701896397 / 36028797018963968 : ℚ) := by
      rw [zpow_neg]; norm_num
    rw [e] at h
    exact h
  have r2 : round64 (-(3602879701896397 / 36028797018963968 : ℚ)
        + -(3602879701896397 / 18014398509481984))
      = -(1351079888211149 / 4503599627370496) := by
    have hE : ulpExp (-(3602879701896397 / 36028797018963968 : ℚ)
        + -(3602879701896397 / 18014398509481984)) = -54 := by
      apply ulpExp_eq _ (-54) _ _ (by norm_num)
      · rw [abs_of_neg (by norm_num)]
        norm_num
      · rw [abs_of_neg (by norm_num)]
        norm_num
    have hq : (-(3602879701896397 / 36028797018963968 : ℚ)
        + -(3602879701896397 / 18014398509481984)) / 2 ^ (-54 : ℤ)
        = ((-5404319552844596 : ℤ) : ℚ) + 1 / 2 := by
      rw [zpow_neg]; norm_num
    unfold round64
    rw [hE, hq, roundHalfEven_tie_even _ (by norm_num)]
    rw [zpow_neg]; norm_num
  have r3 : round64 (1 : ℚ) = 1 := by
    have h := round64_natCast 1 (by norm_num)
    norm_num at h ⊢
    exact h
  have hs : ¬ ("Put" = "Call") := by decide
  have r4 : round64 ((1 : ℚ) - 3152519739159347 / 4503599627370496)
      = 1351079888211149 / 4503599627370496 := by
    have h := round64_of_repr 1351079888211149 (-52) (by norm_num) (by norm_num)
    have e : ((1351079888211149 : ℤ) : ℚ) * 2 ^ (-52 : ℤ)
        = (1 : ℚ) - 3152519739159347 / 4503599627370496 := by
      rw [zpow_neg]; norm_num
    rw [e] at h
    rw [h]
    norm_num
  have r5 : round64 (-(1351079888211149 / 4503599627370496 : ℚ)
        + 1351079888211149 / 4503599627370496) = 0 := by
    have h := round64_natCast 0 (by norm_num)
    norm_num at h ⊢
    exact h
  constructor
  · simp only [routes64.portfolioProfit, routes64.calculateProfit, routes64.calculateCallProfit,
      routes64.calculatePutProfit, List.foldl_cons, List.foldl_nil]
    norm_num [hs]
    rw [r1, r2, r3, r4, r5]
  · simp only [routes.portfolioProfit, routes.calculateProfit, routes.calculateCallProfit,
      routes.calculatePutProfit, List.foldl_cons, List.foldl_nil]
    norm_num [hs]

/-- C7 (counterexample): in the binary64 model `calculateBreakEvenPoints` returns on
no fuel for the single contract of strike `2 ^ 52`: the scan runs over the whole
prices up to the bound `2 ^ 53`, where `price += 1.0` leaves the price unchanged. -/
theorem routes64_breakEvenPoints_stall :
    ¬ ∃ (fuel : Nat) (r : List ℚ),
        routes64.calculateBreakEvenPoints fuel
          [⟨"Call", 4503599627370496, 0, 1, 0, "long"⟩] = some r := by
  rintro ⟨fuel, r, h⟩
  have hmax : routes.maxStrikePrice [⟨"Call", 4503599627370496, 0, 1, 0, "long"⟩]
      = ((4503599627370496 : ℚ) : WithBot ℚ) := by
    simp [routes.maxStrikePrice]
  have hb : round64 (2 * (4503599627370496 : ℚ)) = 9007199254740992 := by
    have h := round64_natCast 9007199254740992 (by norm_num)
    norm_num at h ⊢
    exact h
  have hnever := forPrice64_never ((9007199254740992 : ℚ) : WithBot ℚ) 1
    (routes64.breakEvenBody [⟨"Call", 4503599627370496, 0, 1, 0, "long"⟩])
    (fun p => ∃ n : Nat, n ≤ 2 ^ 53 ∧ p = n)
    (by
      rintro p ⟨n, hn, rfl⟩
      constructor
      · rw [WithBot.coe_le_coe]
        have : ((n : Nat) : ℚ) ≤ ((2 ^ 53 : Nat) : ℚ) := by exact_mod_cast hn
        norm_num at this ⊢
        exact this
      · rcases Nat.lt_or_ge n (2 ^ 53) with hlt | hge
        · refine ⟨n + 1, by omega, ?_⟩
          have h := round64_natCast (n + 1) (by omega)
          push_cast at h ⊢
          exact h
        · have hn2 : n = 2 ^ 53 := le_antisymm hn hge
          refine ⟨2 ^ 53, le_rfl, ?_⟩
          subst hn2
          have h := round64_two_pow_53_add_one
          norm_num at h ⊢
          exact h)
    fuel 0 ([], 0) ⟨0, by norm_num, by norm_num⟩
  unfold routes64.calculateBreakEvenPoints at h
  rw [hmax, WithBot.map_coe, hb, hnever] at h
  simp at h

/-- C7 (amended): in the binary64 model, for a non-empty portfolio of at most 4
contracts whose strikes are non-negative binary64 values below `2 ^ 52` (so that
every scanned price is exact) and whose asks are at most `2 ^ 1000` in magnitude (so
that no sum overflows), with `M` its greatest strike, `calculateBreakEvenPoints`
returns, in ascending order, exactly the whole prices `p ≥ 1`, `p ≤ 2 * M`, at which
the computed portfolio profit `P` satisfies `P (p - 1) < 0 ≤ P p` or
`P (p - 1) > 0 ≥ P p`; the first price 0 is never reported, and `p + 1` is never
reported when `P p = 0`. -/
theorem routes64_breakEvenPoints_characterisation (cs : List OptionsContract)
    (hne : cs ≠ []) (_hlen : cs.length ≤ 4)
    (hstrike : ∀ c ∈ cs, 0 ≤ c.StrikePrice ∧ c.StrikePrice < 2 ^ 52
      ∧ ∃ m e : ℤ, |m| < 2 ^ 53 ∧ -1074 ≤ e ∧ c.StrikePrice = (m : ℚ) * 2 ^ e)
    (_hask : ∀ c ∈ cs, |c.Ask| ≤ 2 ^ 1000) :
    ∃ M : ℚ, routes.maxStrikePrice cs = (M : WithBot ℚ)
      ∧ (∀ c ∈ cs, c.StrikePrice ≤ M) ∧ (∃ c ∈ cs, c.StrikePrice = M)
      ∧ ∃ r : List ℚ, (∃ fuel, routes64.calculateBreakEvenPoints fuel cs = some r)
        ∧ (∀ fuel r2, routes64.calculateBreakEvenPoints fuel cs = some r2 → r2 = r)
        ∧ r.Sorted (· < ·)
        ∧ (∀ x : ℚ, x ∈ r ↔ ∃ p : Nat, 1 ≤ p ∧ (p : ℚ) ≤ 2 * M ∧ x = p
            ∧ ((routes64.portfolioProfit cs ((p : ℚ) - 1) < 0
                  ∧ 0 ≤ routes64.portfolioProfit cs p)
              ∨ (routes64.portfolioProfit cs ((p : ℚ) - 1) > 0
                  ∧ routes64.portfolioProfit cs p ≤ 0)))
        ∧ (0 : ℚ) ∉ r
        ∧ (∀ p : Nat, routes64.portfolioProfit cs p = 0 → ((p : ℚ) + 1) ∉ r) := by
  obtain ⟨_, _, hub, ⟨cM, hcM, hcMe⟩⟩ := strikeRange_spec cs hne
  have hMS : routes.maxStrikePrice cs = (((routes.strikeRange cs).2 : ℚ) : WithBot ℚ) := by
    cases cs with
    | nil => exact absurd rfl hne
    | cons c cs => exact maxStrikePrice_cons c cs
  obtain ⟨hM0', hMlt', m, e, hm, he, hme⟩ := hstrike cM hcM
  have hM0 : 0 ≤ (routes.strikeRange cs).2 := by rw [← hcMe]; exact hM0'
  have hMlt : (routes.strikeRange cs).2 < 2 ^ 52 := by rw [← hcMe]; exact hMlt'
  have hb : round64 (2 * (routes.strikeRange cs).2) = 2 * (routes.strikeRange cs).2 := by
    have h := round64_of_repr m (e + 1) hm (by omega)
    have e2 : (m : ℚ) * 2 ^ (e + 1) = 2 * (routes.strikeRange cs).2 := by
      rw [← hcMe, hme, zpow_add₀ (by norm_num), zpow_one]
      ring
    rw [e2] at h
    exact h
  have h2M : (0 : ℚ) ≤ 2 * (routes.strikeRange cs).2 - 0 := by linarith
  obtain ⟨c1, c2⟩ := loop_count_spec 0 (2 * (routes.strikeRange cs).2) 1 one_pos (by linarith)
  have hN : ⌊(2 * (routes.strikeRange cs).2 - 0) / 1⌋₊ < 2 ^ 53 := by
    have h1 : ((⌊(2 * (routes.strikeRange cs).2 - 0) / 1⌋₊ : Nat) : ℚ)
        ≤ (2 * (routes.strikeRange cs).2 - 0) / 1 := Nat.floor_le (by simpa using h2M)
    have h2 : ((⌊(2 * (routes.strikeRange cs).2 - 0) / 1⌋₊ : Nat) : ℚ)
        < ((2 ^ 53 : Nat) : ℚ) := by
      push_cast
      have : (2 * (routes.strikeRange cs).2 - 0) / 1 < 2 ^ 53 := by
        norm_num at hMlt ⊢
        linarith
      linarith
    exact_mod_cast h2
  have hex : ∀ i : Nat, i < ⌊(2 * (routes.strikeRange cs).2 - 0) / 1⌋₊ + 1 →
      round64 ((0 : ℚ) + i * 1 + 1) = 0 + i * 1 + 1 := by
    intro i hi
    have h := round64_natCast (i + 1) (by omega)
    have e2 : (0 : ℚ) + i * 1 + 1 = ((i + 1 : Nat) : ℚ) := by push_cast; ring
    rw [e2]
    exact h
  have hrun := forPrice64_eq_iterPrice (2 * (routes.strikeRange cs).2) 1
    (routes64.breakEvenBody cs) _ 0 ([], 0) 0 c1 c2 hex
  have hret : routes64.calculateBreakEvenPoints
      (⌊(2 * (routes.strikeRange cs).2 - 0) / 1⌋₊ + 1 + 1 + 0) cs
      = some (iterPrice 1 (routes64.breakEvenBody cs)
          (⌊(2 * (routes.strikeRange cs).2 - 0) / 1⌋₊ + 1) 0 ([], 0)).1 := by
    unfold routes64.calculateBreakEvenPoints
    rw [hMS, WithBot.map_coe, hb, hrun]
    rfl
  have hiter := iterPrice_breakEven_of_body (routes64.portfolioProfit cs)
    (routes64.breakEvenBody cs) (fun _ _ => rfl)
    (⌊(2 * (routes.strikeRange cs).2 - 0) / 1⌋₊ + 1) 0 [] 0 (fun h => absurd rfl h)
  rw [Nat.cast_zero] at hiter
  rw [hiter, List.nil_append] at hret
  have hmem : ∀ x : ℚ, x ∈ ((List.range' 0 (⌊(2 * (routes.strikeRange cs).2 - 0) / 1⌋₊ + 1)).filter
        (fun p : Nat => decide (p ≠ 0 ∧
            ((routes64.portfolioProfit cs ((p : ℚ) - 1) < 0 ∧ routes64.portfolioProfit cs p ≥ 0)
              ∨ (routes64.portfolioProfit cs ((p : ℚ) - 1) > 0
                  ∧ routes64.portfolioProfit cs p ≤ 0))))).map (fun p : Nat => (p : ℚ))
      ↔ ∃ p : Nat, 1 ≤ p ∧ (p : ℚ) ≤ 2 * (routes.strikeRange cs).2 ∧ x = p
            ∧ ((routes64.portfolioProfit cs ((p : ℚ) - 1) < 0
                  ∧ 0 ≤ routes64.portfolioProfit cs p)
              ∨ (routes64.portfolioProfit cs ((p : ℚ) - 1) > 0
                  ∧ routes64.portfolioProfit cs p ≤ 0)) := by
    intro x
    simp only [List.mem_map, List.mem_filter, List.mem_range'_1, decide_eq_true_eq]
    constructor
    · rintro ⟨p, ⟨⟨_, hlt⟩, hp0, hcross⟩, rfl⟩
      have hle : p ≤ ⌊(2 * (routes.strikeRange cs).2 - 0) / 1⌋₊ := by omega
      have hq := (Nat.le_floor_iff (by simpa using h2M)).mp hle
      refine ⟨p, Nat.one_le_iff_ne_zero.mpr hp0, ?_, rfl, hcross⟩
      simpa using hq
    · rintro ⟨p, hp1, hle, rfl, hcross⟩
      have hq : p ≤ ⌊(2 * (routes.strikeRange cs).2 - 0) / 1⌋₊ :=
        (Nat.le_floor_iff (by simpa using h2M)).mpr (by simpa using hle)
      exact ⟨p, ⟨⟨Nat.zero_le _, by omega⟩, Nat.one_le_iff_ne_zero.mp hp1, hcross⟩, rfl⟩
  refine ⟨_, hMS, hub, ⟨cM, hcM, hcMe⟩, _, ⟨_, hret⟩, ?_, ?_, hmem, ?_, ?_⟩
  · intro fuel r2 h2
    unfold routes64.calculateBreakEvenPoints at h2 hret
    cases h1 : forPrice64 (WithBot.map (fun m => round64 (2 * m)) (routes.maxStrikePrice cs)) 1
        (routes64.breakEvenBody cs) fuel 0 ([], 0) with
    | none => rw [h1] at h2; simp at h2
    | some s1 =>
      cases h3 : forPrice64 (WithBot.map (fun m => round64 (2 * m)) (routes.maxStrikePrice cs))
          1 (routes64.breakEvenBody cs)
          (⌊(2 * (routes.strikeRange cs).2 - 0) / 1⌋₊ + 1 + 1 + 0) 0 ([], 0) with
      | none => rw [h3] at hret; simp at hret
      | some s2 =>
        have e := forPrice64_deterministic _ _ _ _ _ _ _ _ _ h1 h3
        rw [h1] at h2
        rw [h3] at hret
        simp only [Option.map_some'] at h2 hret
        rw [← Option.some.inj h2, ← Option.some.inj hret, e]
  · apply List.Pairwise.map (R := (· < ·))
    · intro a b hab
      exact_mod_cast hab
    · exact List.Pairwise.filter _ (List.pairwise_lt_range' 0 _)
  · intro h0
    obtain ⟨p, hp1, _, hp, _⟩ := (hmem 0).mp h0
    have : (p : ℚ) = 0 := hp.symm
    have : p = 0 := by exact_mod_cast this
    omega
  · intro p hp hmemp
    obtain ⟨q, _, _, hq, hcross⟩ := (hmem _).mp hmemp
    have hqp : q = p + 1 := by exact_mod_cast hq.symm
    subst hqp
    have e : (((p + 1 : Nat) : ℚ) - 1) = (p : ℚ) := by push_cast; ring
    rw [e, hp] at hcross
    rcases hcross with ⟨h, _⟩ | ⟨h, _⟩
    · exact lt_irrefl _ h
    · exact lt_irrefl _ h

/-- Witness of C7 (amended): the single long call of strike 100 and ask 5. -/
theorem routes64_breakEvenPoints_characterisation_witness :
    ∃ M : ℚ, routes.maxStrikePrice [⟨"Call", 100, 0, 5, 0, "long"⟩] = (M : WithBot ℚ)
      ∧ (∀ c ∈ [(⟨"Call", 100, 0, 5, 0, "long"⟩ : OptionsContract)], c.StrikePrice ≤ M)
      ∧ (∃ c ∈ [(⟨"Call", 100, 0, 5, 0, "long"⟩ : OptionsContract)], c.StrikePrice = M)
      ∧ ∃ r : List ℚ,
        (∃ fuel, routes64.calculateBreakEvenPoints fuel [⟨"Call", 100, 0, 5, 0, "long"⟩]
            = some r)
        ∧ (∀ fuel r2,
            routes64.calculateBreakEvenPoints fuel [⟨"Call", 100, 0, 5, 0, "long"⟩] = some r2
              → r2 = r)
        ∧ r.Sorted (· < ·)
        ∧ (∀ x : ℚ, x ∈ r ↔ ∃ p : Nat, 1 ≤ p ∧ (p : ℚ) ≤ 2 * M ∧ x = p
            ∧ ((routes64.portfolioProfit [⟨"Call", 100, 0, 5, 0, "long"⟩] ((p : ℚ) - 1) < 0
                  ∧ 0 ≤ routes64.portfolioProfit [⟨"Call", 100, 0, 5, 0, "long"⟩] p)
              ∨ (routes64.portfolioProfit [⟨"Call", 100, 0, 5, 0, "long"⟩] ((p : ℚ) - 1) > 0
                  ∧ routes64.portfolioProfit [⟨"Call", 100, 0, 5, 0, "long"⟩] p ≤ 0)))
        ∧ (0 : ℚ) ∉ r
        ∧ (∀ p : Nat, routes64.portfolioProfit [⟨"Call", 100, 0, 5, 0, "long"⟩] p = 0
            → ((p : ℚ) + 1) ∉ r) :=
  routes64_breakEvenPoints_characterisation [⟨"Call", 100, 0, 5, 0, "long"⟩] (by simp)
    (by simp)
    (by
      intro c hc
      simp only [List.mem_singleton] at hc
      subst hc
      exact ⟨by norm_num, by norm_num, 100, 0, by norm_num, by norm_num, by norm_num⟩)
    (by
      intro c hc
      simp only [List.mem_singleton] at hc
      subst hc
      norm_num)

/-! ## The loss scan against the curve in the binary64 model -/

/-- For a price and a contract on the grid, of magnitudes up to `2 ^ 31` and
`2 ^ 30`, the rounded payoff is the exact payoff, a grid value of magnitude at most
`2 ^ 32`. -/
theorem calculateProfit64_eq (c : OptionsContract) (x : ℚ)
    (hK : OnGrid c.StrikePrice ∧ |c.StrikePrice| ≤ 2 ^ 30)
    (hA : OnGrid c.Ask ∧ |c.Ask| ≤ 2 ^ 30) (hx : OnGrid x) (hxb : |x| ≤ 2 ^ 31) :
    routes64.calculateProfit c x = routes.calculateProfit c x
      ∧ OnGrid (routes.calculateProfit c x) ∧ |routes.calculateProfit c x| ≤ 2 ^ 32 := by
  obtain ⟨hKg, hKb⟩ := hK
  obtain ⟨hAg, hAb⟩ := hA
  have hK2 := abs_le.mp hKb
  have hA2 := abs_le.mp hAb
  have hx2 := abs_le.mp hxb
  have e1 : round64 (x - c.StrikePrice) = x - c.StrikePrice := by
    apply round64_onGrid _ (onGrid_sub _ _ hx hKg)
    rw [abs_lt]
    constructor <;> norm_num at hK2 hx2 ⊢ <;> linarith
  have e2 : round64 (x - c.StrikePrice - c.Ask) = x - c.StrikePrice - c.Ask := by
    apply round64_onGrid _ (onGrid_sub _ _ (onGrid_sub _ _ hx hKg) hAg)
    rw [abs_lt]
    constructor <;> norm_num at hK2 hx2 hA2 ⊢ <;> linarith
  have e3 : round64 (c.StrikePrice - x) = c.StrikePrice - x := by
    apply round64_onGrid _ (onGrid_sub _ _ hKg hx)
    rw [abs_lt]
    constructor <;> norm_num at hK2 hx2 ⊢ <;> linarith
  have e4 : round64 (c.StrikePrice - x - c.Ask) = c.StrikePrice - x - c.Ask := by
    apply round64_onGrid _ (onGrid_sub _ _ (onGrid_sub _ _ hKg hx) hAg)
    rw [abs_lt]
    constructor <;> norm_num at hK2 hx2 hA2 ⊢ <;> linarith
  have g0 : OnGrid (0 : ℚ) := ⟨0, by norm_num⟩
  unfold routes64.calculateProfit routes.calculateProfit routes64.calculateCallProfit
    routes64.calculatePutProfit routes.calculateCallProfit routes.calculatePutProfit
  rw [e1, e2, e3, e4]
  refine ⟨rfl, ?_, ?_⟩
  · split_ifs
    · exact onGrid_neg _ hAg
    · exact onGrid_sub _ _ (onGrid_sub _ _ hx hKg) hAg
    · exact onGrid_neg _ hAg
    · exact onGrid_sub _ _ (onGrid_sub _ _ hKg hx) hAg
    · exact g0
  · rw [abs_le]
    split_ifs <;> constructor <;> norm_num at hK2 hx2 hA2 ⊢ <;> linarith

/-- The rounded accumulation of the payoffs of at most `4 - n` contracts, started at
a grid value of magnitude at most `n * 2 ^ 32`, is the exact accumulation. -/
theorem foldl_profit64_eq (x : ℚ) (hx : OnGrid x) (hxb : |x| ≤ 2 ^ 31) :
    ∀ (cs : List OptionsContract) (acc : ℚ) (n : Nat),
      (∀ c ∈ cs, (OnGrid c.StrikePrice ∧ |c.StrikePrice| ≤ 2 ^ 30)
        ∧ (OnGrid c.Ask ∧ |c.Ask| ≤ 2 ^ 30)) →
      OnGrid acc → |acc| ≤ n * 2 ^ 32 → n + cs.length ≤ 4 →
      cs.foldl (fun profit contract => round64 (profit + routes64.calculateProfit contract x)) acc
        = cs.foldl (fun profit contract => profit + routes.calculateProfit contract x) acc := by
  intro cs
  induction cs with
  | nil => intro acc n _ _ _ _; rfl
  | cons c cs ih =>
    intro acc n hc hacc habs hlen
    obtain ⟨h1, h2, h3⟩ := calculateProfit64_eq c x (hc c (List.mem_cons_self _ _)).1
      (hc c (List.mem_cons_self _ _)).2 hx hxb
    have hn : (n : ℚ) ≤ 3 := by
      have : n ≤ 3 := by simp only [List.length_cons] at hlen; omega
      exact_mod_cast this
    have hsum : |acc + routes.calculateProfit c x| ≤ ((n + 1 : Nat) : ℚ) * 2 ^ 32 := by
      push_cast
      calc |acc + routes.calculateProfit c x|
          ≤ |acc| + |routes.calculateProfit c x| := abs_add _ _
        _ ≤ n * 2 ^ 32 + 2 ^ 32 := add_le_add habs h3
        _ = (n + 1) * 2 ^ 32 := by ring
    have hr : round64 (acc + routes.calculateProfit c x) = acc + routes.calculateProfit c x := by
      apply round64_onGrid _ (onGrid_add _ _ hacc h2)
      apply lt_of_le_of_lt hsum
      push_cast
      have : ((n : ℚ) + 1) * 2 ^ 32 ≤ 4 * 2 ^ 32 := by
        apply mul_le_mul_of_nonneg_right _ (by positivity)
        linarith
      apply lt_of_le_of_lt this
      norm_num
    simp only [List.foldl_cons]
    rw [h1, hr]
    apply ih _ (n + 1) (fun d hd => hc d (List.mem_cons_of_mem _ hd)) (onGrid_add _ _ hacc h2) hsum
    simp only [List.length_cons] at hlen
    omega

/-- For at most 4 contracts on the grid, of strikes and asks up to `2 ^ 30` in
magnitude, and a grid price up to `2 ^ 31` in magnitude, the rounded portfolio
profit is the exact portfolio profit. -/
theorem portfolioProfit64_eq (cs : List OptionsContract) (x : ℚ) (hlen : cs.length ≤ 4)
    (hc : ∀ c ∈ cs, (OnGrid c.StrikePrice ∧ |c.StrikePrice| ≤ 2 ^ 30)
      ∧ (OnGrid c.Ask ∧ |c.Ask| ≤ 2 ^ 30))
    (hx : OnGrid x) (hxb : |x| ≤ 2 ^ 31) :
    routes64.portfolioProfit cs x = routes.portfolioProfit cs x := by
  unfold routes64.portfolioProfit routes.portfolioProfit
  exact foldl_profit64_eq x hx hxb cs 0 0 hc ⟨0, by norm_num⟩ (by norm_num) (by omega)

/-- Any two results of the rounded `calculateMaxLoss` on the same portfolio are
equal. -/
theorem calculateMaxLoss64_deterministic (cs : List OptionsContract) (n1 n2 : Nat)
    (r1 r2 : ℚ) (h1 : routes64.calculateMaxLoss n1 cs = some r1)
    (h2 : routes64.calculateMaxLoss n2 cs = some r2) : r1 = r2 := by
  unfold routes64.calculateMaxLoss at h1 h2
  exact forPrice64_deterministic _ _ _ n1 n2 _ _ r1 r2 h1 h2

/-- C6 (amended): in the binary64 model, for every non-empty portfolio of at most 4
contracts whose strikes are positive whole numbers up to `2 ^ 30`, the greatest a
multiple of 25, and whose asks are multiples of `1 / 1024` up to `2 ^ 30` in magnitude
(so that every price, payoff and sum of both scans is exact), the value returned by
`calculateMaxLoss` is less than or equal to the Y value of every point returned by
`calculateGraphData`. -/
theorem routes64_maxLoss_le_curve (cs : List OptionsContract) (hne : cs ≠ [])
    (hlen : cs.length ≤ 4)
    (hwhole : ∀ c ∈ cs, ∃ k : Nat, 0 < k ∧ k ≤ 2 ^ 30 ∧ c.StrikePrice = k)
    (hmax : ∃ c ∈ cs, (∀ d ∈ cs, d.StrikePrice ≤ c.StrikePrice)
      ∧ ∃ j : Nat, 0 < j ∧ c.StrikePrice = 25 * j)
    (hask : ∀ c ∈ cs, (∃ a : ℤ, c.Ask = (a : ℚ) / 1024) ∧ |c.Ask| ≤ 2 ^ 30) :
    ∃ (L : ℚ) (pts : List GraphPoint),
      (∃ fuel, routes64.calculateMaxLoss fuel cs = some L)
      ∧ (∀ fuel L2, routes64.calculateMaxLoss fuel cs = some L2 → L2 = L)
      ∧ (∃ fuel, routes64.calculateGraphData fuel cs = some pts)
      ∧ (∀ fuel r, routes64.calculateGraphData fuel cs = some r → r = pts)
      ∧ ∀ pt ∈ pts, L ≤ pt.Y := by
  obtain ⟨kmin, j, hj, hjb, hk, hmn, hmx⟩ := strikeRange_whole cs hne
    (fun c hc => by
      obtain ⟨k, _, hk2, hk3⟩ := hwhole c hc
      exact ⟨k, hk2, hk3⟩) hmax
  have hjq : (0 : ℚ) < j := by exact_mod_cast hj
  have hjbq : (25 : ℚ) * j ≤ 2 ^ 30 := by exact_mod_cast hjb
  have hkq : (kmin : ℚ) ≤ 25 * j := by exact_mod_cast hk
  have hgrid : ∀ c ∈ cs, (OnGrid c.StrikePrice ∧ |c.StrikePrice| ≤ 2 ^ 30)
      ∧ (OnGrid c.Ask ∧ |c.Ask| ≤ 2 ^ 30) := by
    intro c hc
    obtain ⟨k, _, hk2, hk3⟩ := hwhole c hc
    refine ⟨⟨?_, ?_⟩, hask c hc⟩
    · rw [hk3]; exact onGrid_intCast (k : ℤ)
    · rw [hk3, abs_of_nonneg (by positivity)]
      exact_mod_cast hk2
  have hwhole2 : ∀ c ∈ cs, ∃ k : Nat, c.StrikePrice = k := by
    intro c hc
    obtain ⟨k, _, _, hk3⟩ := hwhole c hc
    exact ⟨k, hk3⟩
  -- the curve
  have hG := calculateGraphData64_eq cs kmin j hj hjb hk hmn hmx 0
  have hstep : 0 < (routes.strikeRange cs).2 * 2 / 100 := by rw [hmx]; positivity
  have hab : (routes.strikeRange cs).1 * (1 / 2) ≤ (routes.strikeRange cs).2 * (3 / 2) := by
    rw [hmn, hmx]; linarith
  obtain ⟨c1, _⟩ := loop_count_spec _ _ _ hstep hab
  -- the loss scan
  have hMS : routes.maxStrikePrice cs = (((routes.strikeRange cs).2 : ℚ) : WithBot ℚ) := by
    cases cs with
    | nil => exact absurd rfl hne
    | cons c cs => exact maxStrikePrice_cons c cs
  have hb : round64 (2 * (routes.strikeRange cs).2) = ((50 * j : Nat) : ℚ) := by
    have h := round64_natCast (50 * j) (by omega)
    have e : 2 * (routes.strikeRange cs).2 = ((50 * j : Nat) : ℚ) := by
      rw [hmx]; push_cast; ring
    rw [e]; exact h
  have hL : routes64.calculateMaxLoss (50 * j + 1 + 1 + 0) cs
      = some (iterPrice 1
          (fun price maxLoss =>
            if routes64.portfolioProfit cs price < maxLoss then routes64.portfolioProfit cs price
            else maxLoss)
          (50 * j + 1) 0 0) := by
    unfold routes64.calculateMaxLoss
    rw [hMS, WithBot.map_coe, hb]
    apply forPrice64_eq_iterPrice
    · intro i hi
      have : (i : ℚ) ≤ ((50 * j : Nat) : ℚ) := by exact_mod_cast Nat.lt_succ_iff.mp hi
      linarith
    · push_cast
      linarith
    · intro i hi
      have h := round64_natCast (i + 1) (by omega)
      have e2 : (0 : ℚ) + i * 1 + 1 = ((i + 1 : Nat) : ℚ) := by push_cast; ring
      rw [e2]
      exact h
  obtain ⟨_, hscan⟩ := iterPrice_minLoss_le (routes64.portfolioProfit cs) 1 (50 * j + 1) 0 0
  refine ⟨_, _, ⟨_, hL⟩, ?_, ⟨_, hG⟩, ?_, ?_⟩
  · intro fuel L2 h2
    exact calculateMaxLoss64_deterministic cs _ _ _ _ h2 hL
  · intro fuel r hr
    exact calculateGraphData64_deterministic cs _ _ _ _ hr hG
  · intro pt hpt
    obtain ⟨i, hi, rfl⟩ := List.mem_map.mp hpt
    have hub := c1 i (List.mem_range.mp hi)
    have hxg : OnGrid ((routes.strikeRange cs).1 * (1 / 2)
        + (i : ℚ) * ((routes.strikeRange cs).2 * 2 / 100)) := by
      have e : (routes.strikeRange cs).1 * (1 / 2)
          + (i : ℚ) * ((routes.strikeRange cs).2 * 2 / 100)
          = (((kmin + i * j : Nat) : ℤ) : ℚ) / 2 := by
        rw [hmn, hmx]; push_cast; ring
      rw [e]
      exact onGrid_half _
    have hx0 : 0 ≤ (routes.strikeRange cs).1 * (1 / 2)
        + (i : ℚ) * ((routes.strikeRange cs).2 * 2 / 100) := by
      have : 0 ≤ (i : ℚ) * ((routes.strikeRange cs).2 * 2 / 100) :=
        mul_nonneg (Nat.cast_nonneg i) hstep.le
      have : 0 ≤ (routes.strikeRange cs).1 := by rw [hmn]; positivity
      linarith
    generalize (routes.strikeRange cs).1 * (1 / 2)
        + (i : ℚ) * ((routes.strikeRange cs).2 * 2 / 100) = x at hub hx0 hxg ⊢
    show _ ≤ routes64.portfolioProfit cs x
    rw [hmx] at hub
    have hxb : |x| ≤ 2 ^ 31 := by
      rw [abs_of_nonneg hx0]
      norm_num at hjbq ⊢
      linarith
    have hfl : (⌊x⌋₊ : ℚ) ≤ x := Nat.floor_le hx0
    have hfl2 : x < (⌊x⌋₊ : ℚ) + 1 := Nat.lt_floor_add_one x
    have hn2 : ⌊x⌋₊ < 50 * j := by
      have : ((⌊x⌋₊ : Nat) : ℚ) < ((50 * j : Nat) : ℚ) := by
        push_cast
        linarith
      exact_mod_cast this
    have hP0 := hscan ⌊x⌋₊ (by omega)
    have hP1 := hscan (⌊x⌋₊ + 1) (by omega)
    have e0 : (0 : ℚ) + ((⌊x⌋₊ : Nat) : ℚ) * 1 = (⌊x⌋₊ : ℚ) := by ring
    have e1 : (0 : ℚ) + ((⌊x⌋₊ + 1 : Nat) : ℚ) * 1 = (⌊x⌋₊ : ℚ) + 1 := by push_cast; ring
    rw [e0] at hP0
    rw [e1] at hP1
    have hnb : |((⌊x⌋₊ : Nat) : ℚ)| ≤ 2 ^ 31 := by
      rw [abs_of_nonneg (by positivity)]
      rw [abs_of_nonneg hx0] at hxb
      linarith
    have hnb1 : |((⌊x⌋₊ : Nat) : ℚ) + 1| ≤ 2 ^ 31 := by
      rw [abs_of_nonneg (by positivity)]
      norm_num at hjbq ⊢
      linarith
    have g0 : OnGrid ((⌊x⌋₊ : Nat) : ℚ) := ⟨1024 * (⌊x⌋₊ : ℤ), by push_cast; ring⟩
    rw [portfolioProfit64_eq cs _ hlen hgrid g0 hnb] at hP0
    have g1 : OnGrid (((⌊x⌋₊ : Nat) : ℚ) + 1) :=
      ⟨1024 * ((⌊x⌋₊ : ℤ) + 1), by push_cast; ring⟩
    rw [portfolioProfit64_eq cs _ hlen hgrid g1 hnb1] at hP1
    rw [portfolioProfit64_eq cs x hlen hgrid hxg hxb]
    have haff := routes_portfolioProfit_affine cs hwhole2 ⌊x⌋₊ (x - ⌊x⌋₊) (by linarith)
      (by linarith)
    have ex : (⌊x⌋₊ : ℚ) + (x - ⌊x⌋₊) = x := by ring
    rw [ex] at haff
    rw [haff]
    have t0 : 0 ≤ x - (⌊x⌋₊ : ℚ) := by linarith
    have t1 : 0 ≤ 1 - (x - (⌊x⌋₊ : ℚ)) := by linarith
    have m0 := mul_le_mul_of_nonneg_left hP0 t1
    have m1 := mul_le_mul_of_nonneg_left hP1 t0
    linarith

/-- Witness of C6 (amended): the strangle of a put of strike 75 and ask 3.5 and a
call of strike 100 and ask 4.25. -/
theorem routes64_maxLoss_le_curve_witness :
    ∃ (L : ℚ) (pts : List GraphPoint),
      (∃ fuel, routes64.calculateMaxLoss fuel
          [⟨"Put", 75, 0, 7 / 2, 0, "long"⟩, ⟨"Call", 100, 0, 17 / 4, 0, "long"⟩] = some L)
      ∧ (∀ fuel L2, routes64.calculateMaxLoss fuel
          [⟨"Put", 75, 0, 7 / 2, 0, "long"⟩, ⟨"Call", 100, 0, 17 / 4, 0, "long"⟩] = some L2
            → L2 = L)
      ∧ (∃ fuel, routes64.calculateGraphData fuel
          [⟨"Put", 75, 0, 7 / 2, 0, "long"⟩, ⟨"Call", 100, 0, 17 / 4, 0, "long"⟩] = some pts)
      ∧ (∀ fuel r, routes64.calculateGraphData fuel
          [⟨"Put", 75, 0, 7 / 2, 0, "long"⟩, ⟨"Call", 100, 0, 17 / 4, 0, "long"⟩] = some r
            → r = pts)
      ∧ ∀ pt ∈ pts, L ≤ pt.Y :=
  routes64_maxLoss_le_curve
    [⟨"Put", 75, 0, 7 / 2, 0, "long"⟩, ⟨"Call", 100, 0, 17 / 4, 0, "long"⟩] (by simp)
    (by simp)
    (by
      intro c hc
      simp only [List.mem_cons, List.mem_singleton, List.not_mem_nil, or_false] at hc
      rcases hc with rfl | rfl
      · exact ⟨75, by norm_num, by norm_num, by norm_num⟩
      · exact ⟨100, by norm_num, by norm_num, by norm_num⟩)
    ⟨⟨"Call", 100, 0, 17 / 4, 0, "long"⟩, by simp,
      by
        intro d hd
        simp only [List.mem_cons, List.mem_singleton, List.not_mem_nil, or_false] at hd
        rcases hd with rfl | rfl <;> norm_num,
      4, by norm_num, by norm_num⟩
    (by
      intro c hc
      simp only [List.mem_cons, List.mem_singleton, List.not_mem_nil, or_false] at hc
      rcases hc with rfl | rfl
      · exact ⟨⟨3584, by norm_num⟩, by norm_num [abs_of_pos]⟩
      · exact ⟨⟨4352, by norm_num⟩, by norm_num [abs_of_pos]⟩)
